import Mathlib

/-!
Shallow embedding of the Quantum Sudoku rule engine (QuantumCell and
QuantumSudokuGame from the source), with randomness passed as explicit
arguments. All definitions are executable translations of the source;
definitions whose doc comment says so model the spec's reference notions.
-/

set_option maxRecDepth 100000

/-- Embedding of class QuantumCell: per-cell state. The row/col fields of
the source are the board indices and are kept implicitly by position. -/
structure QCell where
  value : Nat
  superposition : List Nat
  collapsed : Bool
  entangled_with : List (Nat × Nat)
  entanglement_group : Option Nat
  locked : Bool
deriving DecidableEq, Repr

/-- The state QuantumCell.__init__ gives a cell. -/
def QCell.init : QCell :=
  { value := 0, superposition := [], collapsed := true, entangled_with := []
    entanglement_group := none, locked := false }

/-- QuantumCell.is_quantum. -/
def QCell.is_quantum (c : QCell) : Bool :=
  !c.superposition.isEmpty && !c.collapsed

/-- QuantumCell.set_superposition. -/
def QCell.set_superposition (c : QCell) (values : List Nat) : QCell :=
  if values.length == 1 then
    { c with value := values.headD 0, collapsed := true, superposition := [] }
  else
    { c with superposition := values, collapsed := false, value := 0 }

/-- QuantumCell.collapse. The random draw of random.choice(superposition)
is passed as the index ridx (reduced modulo the list length); `none`
models the Python return value False, in which case the source mutates
nothing. -/
def QCell.collapse (c : QCell) (v : Option Nat) (ridx : Nat) : Option QCell :=
  if c.superposition.isEmpty || c.collapsed then none
  else
    match v with
    | none =>
        some { c with value := c.superposition.getD (ridx % c.superposition.length) 0,
                      collapsed := true, superposition := [] }
    | some x =>
        if c.superposition.contains x then
          some { c with value := x, collapsed := true, superposition := [] }
        else none

/-- The 9x9 board of cells, row major, as in self.board. -/
abbrev Board := List (List QCell)

/-- Read self.board[r][c]. -/
def getCell (b : Board) (r c : Nat) : QCell :=
  (b.getD r []).getD c QCell.init

/-- Write self.board[r][c]. -/
def setCell (b : Board) (r c : Nat) (q : QCell) : Board :=
  b.set r ((b.getD r []).set c q)

/-- The reset board produced by generate_solved_board before solving. -/
def emptyBoard : Board :=
  (List.range 9).map fun _ => (List.range 9).map fun _ => QCell.init

/-- All 81 coordinates in row-major order, as the source's nested loops
visit them. -/
def allCoords : List (Nat × Nat) :=
  (List.range 9).flatMap fun r => (List.range 9).map fun c => (r, c)

/-- QuantumSudokuGame.is_valid_move with the self.using_logic_move flag
passed explicitly (the source reads it from the object). -/
def is_valid_move (ulm : Bool) (b : Board) (row col num : Nat)
    (check_quantum : Bool) : Bool :=
  if ulm then true
  else
    let bad : Nat → Nat → Bool := fun r c =>
      let other := getCell b r c
      (other.collapsed && other.value == num) ||
        (check_quantum && other.is_quantum && other.superposition.contains num)
    if (List.range 9).any (fun c => c != col && bad row c) then false
    else if (List.range 9).any (fun r => r != row && bad r col) then false
    else if (List.range 3).any (fun i => (List.range 3).any fun j =>
        let r := (row / 3) * 3 + i
        let c := (col / 3) * 3 + j
        (r != row || c != col) && bad r c) then false
    else if row == col &&
        (List.range 9).any (fun i => i != row && bad i i) then false
    else if row + col == 8 &&
        (List.range 9).any (fun i => i != row && bad i (8 - i)) then false
    else true

/-- QuantumSudokuGame.find_empty_cell. -/
def find_empty_cell (b : Board) : Option (Nat × Nat) :=
  (List.range 9).findSome? fun r =>
    (List.range 9).findSome? fun c =>
      if (getCell b r c).value == 0 then some (r, c) else none

/-- The for-num loop inside solve_board: try each value in ascending
order, recurse through the continuation, and backtrack on failure. -/
def solve_try (k : Board → Option Board) (b : Board) (row col : Nat) :
    List Nat → Option Board
  | [] => none
  | n :: rest =>
    if is_valid_move false b row col n false then
      match k (setCell b row col { getCell b row col with value := n }) with
      | some g => some g
      | none => solve_try k b row col rest
    else solve_try k b row col rest

/-- QuantumSudokuGame.solve_board, with fuel making the backtracking
recursion structural (each recursive call fills one more cell, so fuel 82
suffices from any board). -/
def solve_board : Nat → Board → Option Board
  | 0, _ => none
  | fuel + 1, b =>
    match find_empty_cell b with
    | none => some b
    | some (row, col) =>
        solve_try (solve_board fuel) b row col [1, 2, 3, 4, 5, 6, 7, 8, 9]

/-- The value grid the solved diagonal board holds; computed by the
deterministic ascending backtracking of solve_board from the empty board. -/
def gSolVals : List (List Nat) :=
  [[1, 2, 3, 4, 5, 6, 7, 8, 9],
   [4, 5, 6, 7, 8, 9, 1, 2, 3],
   [7, 8, 9, 1, 2, 3, 4, 5, 6],
   [2, 1, 4, 3, 6, 5, 8, 9, 7],
   [3, 6, 8, 9, 7, 2, 5, 1, 4],
   [5, 9, 7, 8, 1, 4, 6, 3, 2],
   [9, 4, 1, 6, 3, 8, 2, 7, 5],
   [8, 3, 2, 5, 4, 7, 9, 6, 1],
   [6, 7, 5, 2, 9, 1, 3, 4, 8]]

/-- Build a board of plain resolved cells from a value grid. -/
def mkB (g : List (List Nat)) : Board :=
  g.map fun row => row.map fun v => { QCell.init with value := v }

/-- The row, column, box, main-diagonal and anti-diagonal value lists of a
board, the nine-cell units the spec requires to be permutations of 1..9. -/
def unitsOf (b : Board) : List (List Nat) :=
  ((List.range 9).map fun r => (List.range 9).map fun c => (getCell b r c).value) ++
  ((List.range 9).map fun c => (List.range 9).map fun r => (getCell b r c).value) ++
  ((List.range 3).flatMap fun bi => (List.range 3).map fun bj =>
    (List.range 3).flatMap fun i => (List.range 3).map fun j =>
      (getCell b (3 * bi + i) (3 * bj + j)).value) ++
  [(List.range 9).map fun i => (getCell b i i).value] ++
  [(List.range 9).map fun i => (getCell b i (8 - i)).value]

/-- A plain value grid, as passed to count_solutions. -/
abbrev Grid := List (List Nat)

/-- Read board[r][c] of a plain grid. -/
def getVal (g : Grid) (r c : Nat) : Nat :=
  (g.getD r []).getD c 0

/-- Write board[r][c] of a plain grid. -/
def setVal (g : Grid) (r c n : Nat) : Grid :=
  g.set r ((g.getD r []).set c n)

/-- QuantumSudokuGame.is_valid_in_board: row, column and box checks only,
no diagonals. -/
def is_valid_in_board (g : Grid) (row col num : Nat) : Bool :=
  if (g.getD row []).contains num then false
  else if ((List.range 9).map fun r => getVal g r col).contains num then false
  else if (List.range 3).any (fun i => (List.range 3).any fun j =>
      getVal g ((row / 3) * 3 + i) ((col / 3) * 3 + j) == num) then false
  else true

/-- The empty-cell scan at the top of count_solutions: row-major first
zero. -/
def find_empty_grid (g : Grid) : Option (Nat × Nat) :=
  (List.range 9).findSome? fun r =>
    (List.range 9).findSome? fun c =>
      if getVal g r c == 0 then some (r, c) else none

/-- The for-num loop of count_solutions, accumulating count and returning
early as soon as the count exceeds 1. -/
def count_try (k : Grid → Nat) (g : Grid) (row col : Nat) :
    List Nat → Nat → Nat
  | [], acc => acc
  | n :: rest, acc =>
    if is_valid_in_board g row col n then
      let acc' := acc + k (setVal g row col n)
      if 1 < acc' then acc' else count_try k g row col rest acc'
    else count_try k g row col rest acc

/-- QuantumSudokuGame.count_solutions (fuel-structured backtracking; each
recursive call fills one more cell, so fuel 82 suffices). -/
def count_solutions : Nat → Grid → Nat
  | 0, _ => 0
  | fuel + 1, g =>
    match find_empty_grid g with
    | none => 1
    | some (row, col) =>
        count_try (count_solutions fuel) g row col [1, 2, 3, 4, 5, 6, 7, 8, 9] 0

/-- Modelled from the spec: the loop of the exhaustive reference counter,
identical to count_try but with the early return removed. -/
def count_all_try (k : Grid → Nat) (g : Grid) (row col : Nat) :
    List Nat → Nat → Nat
  | [], acc => acc
  | n :: rest, acc =>
    if is_valid_in_board g row col n then
      count_all_try k g row col rest (acc + k (setVal g row col n))
    else count_all_try k g row col rest acc

/-- Modelled from the spec: the exact backtracking solution count the
spec's uniqueness language refers to, i.e. count_solutions with the
early-stop (cap) removed so every branch is explored. -/
def count_all : Nat → Grid → Nat
  | 0, _ => 0
  | fuel + 1, g =>
    match find_empty_grid g with
    | none => 1
    | some (row, col) =>
        count_all_try (count_all fuel) g row col [1, 2, 3, 4, 5, 6, 7, 8, 9] 0

/-- Embedding of the QuantumSudokuGame object state (the UI-only field
show_entanglement_lines and the selected cell cursor included for
faithfulness; neither is read by the engine logic). -/
structure GameState where
  board : Board
  difficulty : String
  selected_cell : Option (Nat × Nat)
  player_turn : Bool
  game_over : Bool
  winner : Option String
  message : String
  entanglement_groups : List (Nat × List (Nat × Nat))
  logic_moves_remaining : Int
  show_entanglement_lines : Bool
  using_logic_move : Bool
  player_mistakes : Nat
  ai_mistakes : Nat
deriving DecidableEq, Repr

/-- The field values QuantumSudokuGame.__init__ assigns before calling
setup_game. -/
def initState (difficulty : String) : GameState :=
  { board := emptyBoard, difficulty := difficulty, selected_cell := none
    player_turn := true, game_over := false, winner := none, message := ""
    entanglement_groups := [], logic_moves_remaining := 10
    show_entanglement_lines := false, using_logic_move := false
    player_mistakes := 0, ai_mistakes := 0 }

/-- QuantumSudokuGame.create_entanglement. The random.choice among the
candidate partners is passed as the index choiceIdx (modulo the number of
candidates). -/
def create_entanglement (s : GameState) (row col : Nat) (choiceIdx : Nat) :
    GameState :=
  let candidates := allCoords.filter fun rc =>
    (rc.1 != row || rc.2 != col) && (getCell s.board rc.1 rc.2).is_quantum &&
      (getCell s.board rc.1 rc.2).entangled_with.isEmpty
  if candidates.isEmpty then s
  else
    let other_pos := candidates.getD (choiceIdx % candidates.length) (0, 0)
    let orow := other_pos.1
    let ocol := other_pos.2
    let group_id := s.entanglement_groups.length + 1
    let cell := getCell s.board row col
    let b1 := setCell s.board row col
      { cell with entanglement_group := some group_id
                  entangled_with := cell.entangled_with ++ [(orow, ocol)] }
    let other_cell := getCell b1 orow ocol
    let b2 := setCell b1 orow ocol
      { other_cell with entanglement_group := some group_id
                        entangled_with := other_cell.entangled_with ++ [(row, col)] }
    { s with board := b2
             entanglement_groups :=
               s.entanglement_groups ++ [(group_id, [(row, col), (orow, ocol)])] }

/-- The per-cell random draws create_quantum_cells consumes, indexed by
the position of the cell in the chosen list: nalts is the
random.randint(1,2 or 3) draw, sample the random.sample outcome, entCoin
the random.random() draw against 0.5, entIdx the entanglement partner
choice. -/
structure QDraw where
  nalts : Nat → Nat
  sample : Nat → List Nat → Nat → List Nat
  entCoin : Nat → Rat
  entIdx : Nat → Nat

/-- The randomness create_quantum_cells consumes: the random.shuffle of
the candidate list plus the per-cell draws. -/
structure QRand where
  shuffle : List (Nat × Nat) → List (Nat × Nat)
  draw : QDraw

/-- The conversion loop of create_quantum_cells over the chosen cells
(k numbers the iteration for the draw streams). -/
def convert_cells (d : QDraw) : List (Nat × Nat) → Nat → GameState → GameState
  | [], _, s => s
  | (row, col) :: rest, k, s =>
    let cell := getCell s.board row col
    let value := cell.value
    let alternatives := (List.range 10).filter fun num =>
      decide (1 ≤ num) && num != value &&
        is_valid_move s.using_logic_move s.board row col num false
    let s' :=
      if !alternatives.isEmpty then
        let num_alternatives :=
          if s.difficulty == "easy" then 1 + (d.nalts k) % 2 else 1 + (d.nalts k) % 3
        let alts := d.sample k alternatives (min num_alternatives alternatives.length)
        let newCell := cell.set_superposition (value :: alts)
        let s1 := { s with board := setCell s.board row col newCell }
        if d.entCoin k < 1/2 then create_entanglement s1 row col (d.entIdx k) else s1
      else s
    convert_cells d rest (k + 1) s'

/-- QuantumSudokuGame.create_quantum_cells. -/
def create_quantum_cells (s : GameState) (num_quantum : Nat) (r : QRand) :
    GameState :=
  let candidates := allCoords.filter fun rc =>
    let cell := getCell s.board rc.1 rc.2
    !cell.locked && cell.value != 0 && !cell.is_quantum
  let quantum_cells := (r.shuffle candidates).take num_quantum
  convert_cells r.draw quantum_cells 0 s

/-- The entanglement-propagation loop at the bottom of
collapse_quantum_cell (and, verbatim, inside ai_move): each still-quantum
peer collapses to the just-collapsed value when that value is among its
superposition, else to a random member (index stream ridx, numbered by
peer position). -/
def collapse_peers (v : Nat) (ridx : Nat → Nat) :
    List (Nat × Nat) → Nat → Board → Board
  | [], _, b => b
  | (orow, ocol) :: rest, k, b =>
    let other := getCell b orow ocol
    let b' :=
      if other.is_quantum then
        if other.superposition.contains v then
          match other.collapse (some v) 0 with
          | some c2 => setCell b orow ocol c2
          | none => b
        else
          match other.collapse none (ridx k) with
          | some c2 => setCell b orow ocol c2
          | none => b
      else b
    collapse_peers v ridx rest (k + 1) b'

/-- QuantumSudokuGame.collapse_quantum_cell. `none` models the Python
return value False, in which case the source mutates nothing. selfIdx is
the random draw for an unconstrained self collapse, ridx the draws for
peer collapses. -/
def collapse_quantum_cell (s : GameState) (row col : Nat) (v : Option Nat)
    (selfIdx : Nat) (ridx : Nat → Nat) : Option GameState :=
  let cell := getCell s.board row col
  if !cell.is_quantum then none
  else
    match cell.collapse v selfIdx with
    | none => none
    | some c1 =>
        let b1 := setCell s.board row col c1
        some { s with board := collapse_peers c1.value ridx cell.entangled_with 0 b1 }

/-- Outcome of make_move: a Python return value, or the AttributeError
raised on the self.create_quantum_cell access (the class defines no such
method; only create_quantum_cells exists). -/
inductive MoveOut where
  | ret (ok : Bool) (s : GameState)
  | attrError
deriving DecidableEq

/-- The state a make_move outcome carries, if it returned at all. -/
def MoveOut.state? : MoveOut → Option GameState
  | .ret _ s => some s
  | .attrError => none

/-- QuantumSudokuGame.make_move. p is the random.random() draw for the
20% conversion branch; selfIdx/ridx feed the delegated collapse. -/
def make_move (s : GameState) (row col value : Nat) (p : Rat)
    (selfIdx : Nat) (ridx : Nat → Nat) : MoveOut :=
  let cell := getCell s.board row col
  if cell.locked then .ret false s
  else if cell.collapsed then
    if cell.value == 0 then
      if is_valid_move s.using_logic_move s.board row col value true then
        .ret true { s with board := setCell s.board row col { cell with value := value } }
      else
        .ret false { s with player_mistakes := s.player_mistakes + 1 }
    else
      if p < 1/5 then .attrError
      else .ret false s
  else
    match collapse_quantum_cell s row col (some value) selfIdx ridx with
    | some s' => .ret true s'
    | none => .ret false s

/-- The random draws use_logic_move consumes: rint for random.randint(1,9),
nalts for random.randint(1,3), sample for random.sample, entCoin/entIdx
for the entanglement branch, cIdx for an unconstrained collapse. -/
structure LDraw where
  rint : Nat
  nalts : Nat
  sample : List Nat → Nat → List Nat
  entCoin : Rat
  entIdx : Nat
  cIdx : Nat

/-- QuantumSudokuGame.use_logic_move. -/
def use_logic_move (s : GameState) (row col : Nat) (value : Option Nat)
    (d : LDraw) : Bool × GameState :=
  if s.logic_moves_remaining ≤ 0 then (false, s)
  else
    let cell := getCell s.board row col
    if cell.locked then (false, s)
    else
      let s1 := { s with using_logic_move := true }
      let s2 :=
        if cell.collapsed then
          if cell.value == 0 then
            let newCell := { cell with value := value.getD (1 + d.rint % 9) }
            { s1 with board := setCell s1.board row col newCell }
          else
            let current_value := cell.value
            let alternatives := (List.range 10).filter fun num =>
              decide (1 ≤ num) && num != current_value
            let num_alternatives := 1 + d.nalts % 3
            let alts := d.sample alternatives (min num_alternatives alternatives.length)
            let newCell := cell.set_superposition (current_value :: alts)
            let s1b := { s1 with board := setCell s1.board row col newCell }
            if d.entCoin < 1/2 then create_entanglement s1b row col d.entIdx else s1b
        else
          let collapsed? :=
            match value with
            | some v =>
              if cell.superposition.contains v then cell.collapse (some v) 0
              else cell.collapse none d.cIdx
            | none => cell.collapse none d.cIdx
          match collapsed? with
          | some c' => { s1 with board := setCell s1.board row col c' }
          | none => s1
      let s3 := { s2 with using_logic_move := false }
      (true, { s3 with logic_moves_remaining := s3.logic_moves_remaining - 1 })

/-- QuantumSudokuGame.check_ai_moves scanning loop: stop and bump the AI
mistake counter at the first resolved, nonzero, unlocked cell whose value
fails the candidate-free legality check. -/
def check_ai_loop (s : GameState) : List (Nat × Nat) → Bool × GameState
  | [] => (true, s)
  | (row, col) :: rest =>
    let cell := getCell s.board row col
    if cell.collapsed && cell.value != 0 && !cell.locked then
      if !is_valid_move s.using_logic_move s.board row col cell.value false then
        (false, { s with ai_mistakes := s.ai_mistakes + 1 })
      else check_ai_loop s rest
    else check_ai_loop s rest

/-- QuantumSudokuGame.check_ai_moves. -/
def check_ai_moves (s : GameState) : Bool × GameState :=
  check_ai_loop s allCoords

/-- QuantumSudokuGame.is_board_solved: rows (with the
resolved-and-nonzero test), columns, boxes and both diagonals must each
hold nine distinct values. -/
def is_board_solved (s : GameState) : Bool :=
  ((List.range 9).all fun row =>
    ((List.range 9).all fun col =>
      (getCell s.board row col).collapsed && (getCell s.board row col).value != 0) &&
    (((List.range 9).map fun col => (getCell s.board row col).value).dedup.length == 9)) &&
  ((List.range 9).all fun col =>
    (((List.range 9).map fun row => (getCell s.board row col).value).dedup.length == 9)) &&
  ((List.range 3).all fun bi => (List.range 3).all fun bj =>
    ((((List.range 3).flatMap fun i => (List.range 3).map fun j =>
      (getCell s.board (3 * bi + i) (3 * bj + j)).value).dedup.length) == 9)) &&
  ((((List.range 9).map fun i => (getCell s.board i i).value).dedup.length == 9) &&
   (((List.range 9).map fun i => (getCell s.board i (8 - i)).value).dedup.length == 9))

/-- The all_filled scan at the top of check_game_over: every cell must be
resolved with a nonzero value. -/
def all_filled (s : GameState) : Bool :=
  allCoords.all fun rc =>
    (getCell s.board rc.1 rc.2).collapsed && (getCell s.board rc.1 rc.2).value != 0

/-- QuantumSudokuGame.check_game_over (the engine messages are carried
without the apostrophes of the originals). -/
def check_game_over (s : GameState) : GameState :=
  if !all_filled s then s
  else
    let s1 := { s with game_over := true }
    let player_correct := is_board_solved s1
    let res := check_ai_moves s1
    let ai_correct := res.1
    let s2 := res.2
    if player_correct && !ai_correct then
      { s2 with winner := some "Player", message := "You won! AI made mistakes." }
    else if !player_correct && ai_correct then
      { s2 with winner := some "AI", message := "AI won! You made mistakes." }
    else if player_correct && ai_correct then
      if s2.player_mistakes < s2.ai_mistakes then
        { s2 with winner := some "Player", message := "You won! Made fewer mistakes than AI." }
      else if s2.ai_mistakes < s2.player_mistakes then
        { s2 with winner := some "AI", message := "AI won! Made fewer mistakes than you." }
      else
        { s2 with winner := some "Draw", message := "Perfect match! It is a draw." }
    else
      if s2.player_mistakes < s2.ai_mistakes then
        { s2 with winner := some "Player", message := "You won! Made fewer mistakes than AI." }
      else if s2.ai_mistakes < s2.player_mistakes then
        { s2 with winner := some "AI", message := "AI won! Made fewer mistakes than you." }
      else
        { s2 with winner := some "Draw", message := "Both made same number of mistakes. It is a draw." }

/-- Modelled from the spec: the section 4.4 winner precedence
(correct-only-player wins, correct-only-AI wins, otherwise fewer mistakes
wins and equal mistakes draw), as a function of the two correctness
verdicts and the two mistake counters. -/
def winnerSpec (player_correct ai_correct : Bool) (pm am : Nat) : String :=
  if player_correct && !ai_correct then "Player"
  else if !player_correct && ai_correct then "AI"
  else if pm < am then "Player"
  else if am < pm then "AI"
  else "Draw"

/-- The random draws ai_move consumes: qIdx picks the quantum cell, vIdx
the collapse value among the legal candidates, cIdx an unconstrained
collapse, pIdx the peer collapses, eIdx the empty cell, fIdx the fill
value among the legal ones, rint the random.randint(1,9) fallback. -/
structure ARand where
  qIdx : Nat
  vIdx : Nat
  cIdx : Nat
  pIdx : Nat → Nat
  eIdx : Nat
  fIdx : Nat
  rint : Nat

/-- QuantumSudokuGame.ai_move. -/
def ai_move (s : GameState) (a : ARand) : GameState :=
  if s.game_over then s
  else
    let s' :=
      let quantum_cells := allCoords.filter fun rc =>
        (getCell s.board rc.1 rc.2).is_quantum
      if !quantum_cells.isEmpty then
        let pos := quantum_cells.getD (a.qIdx % quantum_cells.length) (0, 0)
        let row := pos.1
        let col := pos.2
        let cell := getCell s.board row col
        let valid_values := cell.superposition.filter fun v =>
          is_valid_move s.using_logic_move s.board row col v false
        let c1 :=
          (if !valid_values.isEmpty then
            cell.collapse (some (valid_values.getD (a.vIdx % valid_values.length) 0)) 0
          else cell.collapse none a.cIdx).getD cell
        let b1 := setCell s.board row col c1
        { s with board := collapse_peers c1.value a.pIdx cell.entangled_with 0 b1 }
      else
        let empty_cells := allCoords.filter fun rc =>
          (getCell s.board rc.1 rc.2).collapsed && (getCell s.board rc.1 rc.2).value == 0
        if !empty_cells.isEmpty then
          let pos := empty_cells.getD (a.eIdx % empty_cells.length) (0, 0)
          let row := pos.1
          let col := pos.2
          let valid_values := (List.range 10).filter fun num =>
            decide (1 ≤ num) && is_valid_move s.using_logic_move s.board row col num false
          if !valid_values.isEmpty then
            let newCell := { getCell s.board row col with value := valid_values.getD (a.fIdx % valid_values.length) 0 }
            { s with board := setCell s.board row col newCell }
          else
            let newCell := { getCell s.board row col with value := 1 + a.rint % 9 }
            { s with board := setCell s.board row col newCell
                     ai_mistakes := s.ai_mistakes + 1 }
        else s
    check_game_over { s' with player_turn := true }

/-- The removal target per difficulty in create_puzzle. -/
def cells_to_remove (difficulty : String) : Nat :=
  if difficulty == "easy" then 40 else if difficulty == "medium" then 50 else 60

/-- The board_copy of plain values create_puzzle hands to count_solutions. -/
def toGrid (b : Board) : Grid :=
  (List.range 9).map fun r => (List.range 9).map fun c => (getCell b r c).value

/-- The carving loop of create_puzzle over the shuffled cell order: stop
once the target is met; tentatively zero a cell and keep the removal (for
non-hard difficulty) only when count_solutions still reports exactly one
solution. -/
def carve_loop (difficulty : String) (target : Nat) :
    List (Nat × Nat) → Nat → Board → Board
  | [], _, b => b
  | (row, col) :: rest, removed, b =>
    if target ≤ removed then b
    else
      let cell := getCell b row col
      let b' := setCell b row col { cell with value := 0 }
      if difficulty != "hard" then
        if count_solutions 82 (toGrid b') != 1 then
          carve_loop difficulty target rest removed b
        else carve_loop difficulty target rest (removed + 1) b'
      else carve_loop difficulty target rest (removed + 1) b'

/-- The final pass of create_puzzle: every cell still holding a nonzero
value becomes locked. -/
def lock_givens (b : Board) : Board :=
  b.map fun row => row.map fun cell =>
    if cell.value != 0 then { cell with locked := true } else cell

/-- QuantumSudokuGame.create_puzzle, the shuffled visit order passed
explicitly. -/
def create_puzzle (difficulty : String) (order : List (Nat × Nat)) (b : Board) :
    Board :=
  lock_givens (carve_loop difficulty (cells_to_remove difficulty) order 0 b)

/-- Shape of a well-formed 9x9 board. -/
def boardWF (b : Board) : Prop :=
  b.length = 9 ∧ ∀ row ∈ b, row.length = 9

instance : DecidablePred boardWF := fun b => by
  unfold boardWF; infer_instance

/-- A session state whose board is the solved diagonal grid with no cell
locked (every cell resolved and nonzero). -/
def stBase : GameState :=
  { initState "medium" with board := mkB gSolVals }

/-- A superposed two-candidate cell used to build concrete boards. -/
def qCellA : QCell :=
  { QCell.init with superposition := [1, 5], collapsed := false }

/-- Another superposed cell, entangled with position (0,0), used to build
concrete boards. -/
def qCellB : QCell :=
  { QCell.init with superposition := [5, 7], collapsed := false
                    entangled_with := [(0, 0)], entanglement_group := some 1 }

/-- A terminal session (game_over already set, as surrender does) that
still holds a superposed cell and logic-move budget 5. -/
def sTerm : GameState :=
  { stBase with game_over := true, logic_moves_remaining := 5
                board := setCell (mkB gSolVals) 0 0 qCellA }

/-- A fixed draw bundle for use_logic_move. -/
def dC : LDraw :=
  { rint := 0, nalts := 0, sample := fun _ _ => [], entCoin := 1, entIdx := 0
    cIdx := 0 }

/-- A fixed draw bundle for ai_move. -/
def aR0 : ARand :=
  { qIdx := 0, vIdx := 0, cIdx := 0, pIdx := fun _ => 0, eIdx := 0, fIdx := 0
    rint := 0 }

/-- A superposed cell entangled with position (2,2). -/
def qCellA2 : QCell :=
  { QCell.init with superposition := [1, 5], collapsed := false
                    entangled_with := [(2, 2)], entanglement_group := some 1 }

/-- A live session holding a 2-member entanglement group of superposed
cells at (0,0) and (2,2). -/
def sEnt : GameState :=
  { stBase with
      board := setCell (setCell (mkB gSolVals) 0 0 qCellA2) 2 2 qCellB
      entanglement_groups := [(1, [(0, 0), (2, 2)])] }

/-- The state collapse_quantum_cell produces from sEnt when the player
collapses (0,0) to 5. -/
def sEntC : GameState :=
  (collapse_quantum_cell sEnt 0 0 (some 5) 0 (fun _ => 0)).getD sEnt

/-- A full resolved board with a duplicated 2 at (0,0): every cell
resolved and nonzero, but the (0,0) value collides with (0,1), so the AI
self-consistency scan fails there. -/
def sBad : GameState :=
  { stBase with board := setCell (mkB gSolVals) 0 0 { QCell.init with value := 2 } }

/-- A concrete grid on which count_solutions returns 3: the first
candidate at the first empty cell admits exactly one completion, a later
candidate admits two, and 1 + 2 = 3 is returned by the early stop. -/
def g3Vals : Grid :=
  [[9, 4, 2, 5, 1, 8, 3, 7, 0],
   [1, 6, 8, 3, 2, 7, 5, 0, 4],
   [3, 5, 0, 9, 4, 6, 2, 8, 1],
   [4, 8, 3, 0, 0, 5, 0, 0, 7],
   [5, 1, 6, 8, 7, 3, 4, 2, 9],
   [7, 2, 9, 4, 6, 1, 0, 3, 5],
   [0, 7, 0, 6, 3, 4, 9, 5, 8],
   [6, 3, 5, 0, 8, 9, 0, 4, 2],
   [8, 9, 4, 0, 5, 2, 0, 0, 3]]

/-- A concrete grid with exactly one completion (four cells of the solved
grid removed). -/
def gUVals : Grid :=
  [[1, 2, 3, 4, 5, 6, 7, 8, 9],
   [4, 5, 6, 7, 8, 9, 1, 0, 3],
   [7, 8, 9, 1, 2, 3, 4, 5, 6],
   [2, 1, 4, 0, 6, 5, 8, 9, 7],
   [3, 6, 8, 9, 7, 2, 5, 1, 4],
   [5, 9, 7, 8, 1, 4, 6, 3, 2],
   [9, 4, 1, 6, 3, 8, 2, 7, 5],
   [8, 3, 2, 5, 4, 7, 0, 6, 1],
   [6, 7, 5, 0, 9, 1, 3, 4, 8]]

/-- Decidable check that every nonzero cell of a board is locked (the
state create_puzzle always leaves behind). -/
def lockedNonzero (b : Board) : Bool :=
  allCoords.all fun rc =>
    (getCell b rc.1 rc.2).value == 0 || (getCell b rc.1 rc.2).locked

/-- A session holding a freshly carved medium board (carve order empty,
so the board is the solved grid with every cell locked). -/
def stLocked : GameState :=
  { initState "medium" with board := create_puzzle "medium" [] (mkB gSolVals) }

/-- A fixed randomness bundle for create_quantum_cells whose shuffle is
the identity. -/
def qr0 : QRand :=
  { shuffle := fun l => l
    draw := { nalts := fun _ => 0, sample := fun _ _ _ => [], entCoin := fun _ => 1
              entIdx := fun _ => 0 } }

/-- A session whose (0,0) cell is a locked given and whose (1,1) cell is
superposed; all other cells are resolved, nonzero and unlocked. -/
def sW9 : GameState :=
  { initState "medium" with
      board := setCell (setCell (mkB gSolVals) 0 0
        { QCell.init with value := 1, locked := true }) 1 1 qCellA }

/-- The scope relation of is_valid_move for resolved cells: two distinct
positions conflict when they share a row, a column, a 3x3 box, or both
lie on the main or the anti diagonal. -/
def sees (row col r c : Nat) : Prop :=
  ¬(r = row ∧ c = col) ∧
    (r = row ∨ c = col ∨ (r / 3 = row / 3 ∧ c / 3 = col / 3) ∨
      (row = col ∧ r = c) ∨ (row + col = 8 ∧ r + c = 8))

instance (row col r c : Nat) : Decidable (sees row col r c) := by
  unfold sees
  infer_instance

/-- The per-cell invariant maintained by the solver: resolved and in
range. -/
def cellOKAt (b : Board) (r c : Nat) : Prop :=
  (getCell b r c).collapsed = true ∧ (getCell b r c).value ≤ 9

instance (b : Board) (r c : Nat) : Decidable (cellOKAt b r c) := by
  unfold cellOKAt
  infer_instance

/-- The placed value at (row,col) collides with no resolved cell in
scope. -/
def validAt (b : Board) (row col : Nat) : Prop :=
  ∀ r, r < 9 → ∀ c, c < 9 → sees row col r c →
    ¬((getCell b r c).collapsed = true ∧
      (getCell b r c).value = (getCell b row col).value)

instance (b : Board) (row col : Nat) : Decidable (validAt b row col) := by
  unfold validAt
  infer_instance

/-- The solver invariant: well-formed 9x9 board, every cell resolved with
value at most 9, and every nonzero cell legal at its own position. -/
def solveInv (b : Board) : Prop :=
  boardWF b ∧ ∀ r, r < 9 → ∀ c, c < 9 →
    cellOKAt b r c ∧ ((getCell b r c).value ≠ 0 → validAt b r c)

instance (b : Board) : Decidable (solveInv b) := by
  unfold solveInv
  infer_instance

/-- Every cell holds a nonzero value. -/
def completeB (b : Board) : Prop :=
  ∀ r, r < 9 → ∀ c, c < 9 → (getCell b r c).value ≠ 0

instance (b : Board) : Decidable (completeB b) := by
  unfold completeB
  infer_instance

/-- The number of empty cells of a board. -/
def nzeros (b : Board) : Nat :=
  (allCoords.filter fun rc => (getCell b rc.1 rc.2).value == 0).length

/-! Basic frame lemmas about board reads and writes. -/

theorem getD_set_ne {α : Type} {l : List α} {i j : Nat} (a d : α) (h : i ≠ j) :
    (l.set i a).getD j d = l.getD j d := by
  simp [List.getD_eq_getElem?_getD, List.getElem?_set_ne h]

theorem getD_set_eq_of_lt {α : Type} {l : List α} {i : Nat} (a d : α)
    (h : i < l.length) : (l.set i a).getD i d = a := by
  simp [List.getD_eq_getElem?_getD, List.getElem?_set_eq_of_lt _ h]

theorem getCell_setCell_ne (b : Board) {r c r' c' : Nat} (q : QCell)
    (h : (r', c') ≠ (r, c)) :
    getCell (setCell b r c q) r' c' = getCell b r' c' := by
  unfold getCell setCell
  by_cases hr : r' = r
  · subst hr
    have hc : c' ≠ c := fun hcc => h (by rw [hcc])
    by_cases hlen : r' < b.length
    · rw [getD_set_eq_of_lt _ _ hlen]
      exact getD_set_ne _ _ (fun he => hc he.symm)
    · rw [List.set_eq_of_length_le (Nat.le_of_not_lt hlen)]
  · rw [getD_set_ne _ _ (fun he => hr he.symm)]

theorem getCell_setCell_self {b : Board} {r c : Nat} (q : QCell)
    (hb : boardWF b) (hr : r < 9) (hc : c < 9) :
    getCell (setCell b r c q) r c = q := by
  unfold getCell setCell
  have hlen : r < b.length := by rw [hb.1]; exact hr
  have hrowlen : (b.getD r []).length = 9 := by
    rw [List.getD_eq_getElem?_getD, List.getElem?_eq_getElem hlen]
    exact hb.2 _ (List.getElem_mem hlen)
  rw [getD_set_eq_of_lt _ _ hlen]
  exact getD_set_eq_of_lt _ _ (by rw [hrowlen]; exact hc)

theorem boardWF_setCell {b : Board} {r c : Nat} (q : QCell) (hb : boardWF b) :
    boardWF (setCell b r c q) := by
  by_cases hlen : r < b.length
  · constructor
    · simp [setCell, hb.1]
    · intro row hrow
      rcases List.mem_or_eq_of_mem_set hrow with h | h
      · exact hb.2 _ h
      · subst h
        rw [List.length_set]
        rw [List.getD_eq_getElem?_getD, List.getElem?_eq_getElem hlen]
        exact hb.2 _ (List.getElem_mem hlen)
  · unfold setCell
    rw [List.set_eq_of_length_le (Nat.le_of_not_lt hlen)]
    exact hb

/-! Shape lemmas: which state fields each operation can touch. -/

theorem create_entanglement_shape (s : GameState) (row col i : Nat) :
    ∃ b g, create_entanglement s row col i =
      { s with board := b, entanglement_groups := g } := by
  unfold create_entanglement
  dsimp only
  split
  · exact ⟨s.board, s.entanglement_groups, rfl⟩
  · exact ⟨_, _, rfl⟩

theorem collapse_quantum_cell_shape (s : GameState) (row col : Nat)
    (v : Option Nat) (i : Nat) (f : Nat → Nat) :
    collapse_quantum_cell s row col v i f = none ∨
      ∃ b, collapse_quantum_cell s row col v i f = some { s with board := b } := by
  unfold collapse_quantum_cell
  dsimp only
  split
  · exact Or.inl rfl
  · split
    · exact Or.inl rfl
    · exact Or.inr ⟨_, rfl⟩

theorem check_ai_loop_shape (s : GameState) (l : List (Nat × Nat)) :
    check_ai_loop s l = (true, s) ∨
      check_ai_loop s l = (false, { s with ai_mistakes := s.ai_mistakes + 1 }) := by
  induction l with
  | nil => exact Or.inl rfl
  | cons hd tl ih =>
    obtain ⟨row, col⟩ := hd
    unfold check_ai_loop
    dsimp only
    split
    · split
      · exact Or.inr rfl
      · exact ih
    · exact ih

theorem check_game_over_shape (s : GameState) :
    check_game_over s = s ∨
      ∃ am w m, check_game_over s =
        { s with game_over := true, ai_mistakes := am, winner := some w, message := m } := by
  unfold check_game_over
  split
  · exact Or.inl rfl
  · rcases check_ai_loop_shape { s with game_over := true } allCoords with h | h <;>
      refine Or.inr ?_ <;>
      simp only [check_ai_moves, h] <;>
      split_ifs <;> exact ⟨_, _, _, rfl⟩

theorem use_logic_move_budget_zero (s : GameState) (r c : Nat) (v : Option Nat)
    (d : LDraw) (h : s.logic_moves_remaining ≤ 0) :
    use_logic_move s r c v d = (false, s) := by
  unfold use_logic_move
  simp [h]

theorem use_logic_move_locked (s : GameState) (r c : Nat) (v : Option Nat)
    (d : LDraw) (h1 : ¬s.logic_moves_remaining ≤ 0)
    (h2 : (getCell s.board r c).locked = true) :
    use_logic_move s r c v d = (false, s) := by
  unfold use_logic_move
  rw [if_neg h1]
  simp [h2]

theorem use_logic_move_success_fields (s : GameState) (r c : Nat)
    (v : Option Nat) (d : LDraw) (h1 : ¬s.logic_moves_remaining ≤ 0)
    (h2 : (getCell s.board r c).locked = false) :
    (use_logic_move s r c v d).1 = true ∧
    (use_logic_move s r c v d).2.logic_moves_remaining = s.logic_moves_remaining - 1 ∧
    (use_logic_move s r c v d).2.player_mistakes = s.player_mistakes ∧
    (use_logic_move s r c v d).2.ai_mistakes = s.ai_mistakes := by
  unfold use_logic_move
  rw [if_neg h1, if_neg (by simp [h2])]
  dsimp only
  split
  · split
    · simp
    · split
      · obtain ⟨b', g', hce⟩ := create_entanglement_shape _ r c _
        rw [hce]
        simp
      · simp
  · split <;> simp

theorem check_game_over_budget (s : GameState) :
    (check_game_over s).logic_moves_remaining = s.logic_moves_remaining := by
  rcases check_game_over_shape s with h | ⟨am, w, m, h⟩ <;> rw [h]

theorem make_move_budget (s : GameState) (row col value : Nat) (p : Rat)
    (i : Nat) (f : Nat → Nat) :
    (((make_move s row col value p i f).state?.map
      (fun s' => s'.logic_moves_remaining)).getD s.logic_moves_remaining) =
      s.logic_moves_remaining := by
  by_cases hl : (getCell s.board row col).locked = true
  · simp [make_move, hl, MoveOut.state?]
  · by_cases hc : (getCell s.board row col).collapsed = true
    · by_cases hv : ((getCell s.board row col).value == 0) = true
      · by_cases hval : is_valid_move s.using_logic_move s.board row col value true = true
        · simp [make_move, hl, hc, hv, hval, MoveOut.state?]
        · simp [make_move, hl, hc, hv, hval, MoveOut.state?]
      · by_cases hp : p < (5 : Rat)⁻¹ <;>
          simp [make_move, hl, hc, hv, hp, one_div, MoveOut.state?]
    · rcases collapse_quantum_cell_shape s row col (some value) i f with h | ⟨b, h⟩ <;>
        simp [make_move, hl, hc, h, MoveOut.state?]

theorem ai_move_budget (s : GameState) (a : ARand) :
    (ai_move s a).logic_moves_remaining = s.logic_moves_remaining := by
  unfold ai_move
  split
  · rfl
  · rw [check_game_over_budget]
    dsimp only
    split
    · rfl
    · split
      · split <;> rfl
      · rfl

theorem collapse_quantum_cell_budget (s : GameState) (row col : Nat)
    (v : Option Nat) (i : Nat) (f : Nat → Nat) :
    (((collapse_quantum_cell s row col v i f).map
      (fun s' => s'.logic_moves_remaining)).getD s.logic_moves_remaining) =
      s.logic_moves_remaining := by
  rcases collapse_quantum_cell_shape s row col v i f with h | ⟨b, h⟩ <;> rw [h] <;> rfl

/-- Claim C8: the logic-move budget starts at 10, is monotonically
non-increasing under every engine command, never drops below 0,
use_logic_move with an exhausted budget fails without mutating anything,
and every successful use_logic_move decrements the budget by exactly 1. -/
theorem claim_C8 (difficulty : String)
    (s0 : GameState) (r0 c0 : Nat) (v0 : Option Nat) (d0 : LDraw)
    (s1 : GameState) (r1 c1 : Nat) (v1 : Option Nat) (d1 : LDraw)
    (s2 : GameState) (r2 c2 : Nat) (v2 : Option Nat) (d2 : LDraw)
    (s3 : GameState) (r3 c3 : Nat) (v3 : Option Nat) (d3 : LDraw)
    (s4 : GameState) (r4 c4 n4 : Nat) (p4 : Rat) (i4 : Nat) (f4 : Nat → Nat)
    (s5 : GameState) (a5 : ARand)
    (s6 : GameState) (r6 c6 : Nat) (v6 : Option Nat) (i6 : Nat) (f6 : Nat → Nat)
    (h0 : s0.logic_moves_remaining ≤ 0)
    (h2 : (use_logic_move s2 r2 c2 v2 d2).1 = true)
    (h3 : 0 ≤ s3.logic_moves_remaining) :
    (initState difficulty).logic_moves_remaining = 10 ∧
    use_logic_move s0 r0 c0 v0 d0 = (false, s0) ∧
    (use_logic_move s1 r1 c1 v1 d1).2.logic_moves_remaining ≤ s1.logic_moves_remaining ∧
    (use_logic_move s2 r2 c2 v2 d2).2.logic_moves_remaining = s2.logic_moves_remaining - 1 ∧
    0 ≤ (use_logic_move s3 r3 c3 v3 d3).2.logic_moves_remaining ∧
    (((make_move s4 r4 c4 n4 p4 i4 f4).state?.map
      (fun s' => s'.logic_moves_remaining)).getD s4.logic_moves_remaining) =
      s4.logic_moves_remaining ∧
    (ai_move s5 a5).logic_moves_remaining = s5.logic_moves_remaining ∧
    (((collapse_quantum_cell s6 r6 c6 v6 i6 f6).map
      (fun s' => s'.logic_moves_remaining)).getD s6.logic_moves_remaining) =
      s6.logic_moves_remaining := by
  refine ⟨rfl, use_logic_move_budget_zero _ _ _ _ _ h0, ?_, ?_, ?_,
    make_move_budget _ _ _ _ _ _ _, ai_move_budget _ _,
    collapse_quantum_cell_budget _ _ _ _ _ _⟩
  · by_cases hb : s1.logic_moves_remaining ≤ 0
    · rw [use_logic_move_budget_zero _ _ _ _ _ hb]
    · by_cases hl : (getCell s1.board r1 c1).locked
      · rw [use_logic_move_locked _ _ _ _ _ hb hl]
      · have := (use_logic_move_success_fields s1 r1 c1 v1 d1 hb
          (Bool.eq_false_iff.mpr hl)).2.1
        omega
  · by_cases hb : s2.logic_moves_remaining ≤ 0
    · rw [use_logic_move_budget_zero _ _ _ _ _ hb] at h2
      exact absurd h2 (by simp)
    · by_cases hl : (getCell s2.board r2 c2).locked
      · rw [use_logic_move_locked _ _ _ _ _ hb hl] at h2
        exact absurd h2 (by simp)
      · exact (use_logic_move_success_fields s2 r2 c2 v2 d2 hb
          (Bool.eq_false_iff.mpr hl)).2.1
  · by_cases hb : s3.logic_moves_remaining ≤ 0
    · rw [use_logic_move_budget_zero _ _ _ _ _ hb]
      exact h3
    · by_cases hl : (getCell s3.board r3 c3).locked
      · rw [use_logic_move_locked _ _ _ _ _ hb hl]
        exact h3
      · have := (use_logic_move_success_fields s3 r3 c3 v3 d3 hb
          (Bool.eq_false_iff.mpr hl)).2.1
        omega

/-- Claim C1 (code bug): make_move on an unlocked, resolved, nonzero cell
with the random draw below 0.2 does not convert the cell and report
success, and does not return a rejection either: the source calls the
undefined method create_quantum_cell, so the call raises AttributeError. -/
theorem claim_C1 (s : GameState) (row col value : Nat) (p : Rat)
    (selfIdx : Nat) (ridx : Nat → Nat)
    (hlock : (getCell s.board row col).locked = false)
    (hcol : (getCell s.board row col).collapsed = true)
    (hval : (getCell s.board row col).value ≠ 0)
    (hp : p < 1 / 5) :
    make_move s row col value p selfIdx ridx = MoveOut.attrError := by
  have hp' : p < (5 : Rat)⁻¹ := by rwa [one_div] at hp
  simp [make_move, hlock, hcol, hval, hp', one_div]

/-- Witness for C1 at a concrete resolved, nonzero, unlocked cell and a
draw of 0.1 < 0.2. -/
theorem claim_C1_witness :
    (getCell stBase.board 0 0).locked = false ∧
    (getCell stBase.board 0 0).collapsed = true ∧
    (getCell stBase.board 0 0).value ≠ 0 ∧
    ((1 : Rat) / 10) < 1 / 5 ∧
    make_move stBase 0 0 5 (1 / 10) 0 (fun _ => 0) = MoveOut.attrError :=
  ⟨by decide, by decide, by decide, by norm_num,
    claim_C1 stBase 0 0 5 (1 / 10) 0 (fun _ => 0) (by decide) (by decide)
      (by decide) (by norm_num)⟩

/-- Claim C2 (amended): once the session is terminal, ai_move is a no-op
returning the state unchanged; make_move and use_logic_move perform no
terminal check (see the counterexample: a logic move on a terminal
session still succeeds and mutates the budget and grid). -/
theorem claim_C2 (s : GameState) (a : ARand) (h : s.game_over = true) :
    ai_move s a = s := by
  unfold ai_move
  simp [h]

/-- Witness for the amended C2 at a concrete terminal state. -/
theorem claim_C2_witness : sTerm.game_over = true ∧ ai_move sTerm aR0 = sTerm :=
  ⟨rfl, claim_C2 sTerm aR0 rfl⟩

/-- Counterexample to C2 as stated: on a terminal session (game_over set,
exactly as surrender leaves it), use_logic_move still succeeds, collapses
the superposed cell and decrements the logic-move budget from 5 to 4. -/
theorem claim_C2_counterexample :
    sTerm.game_over = true ∧
    (use_logic_move sTerm 0 0 (some 5) dC).1 = true ∧
    (use_logic_move sTerm 0 0 (some 5) dC).2.logic_moves_remaining = 4 ∧
    sTerm.logic_moves_remaining = 5 ∧
    (getCell (use_logic_move sTerm 0 0 (some 5) dC).2.board 0 0).collapsed = true ∧
    (getCell sTerm.board 0 0).collapsed = false := by
  decide

/-- Witness for C8 at concrete states: budget 0 rejects, and the
successful logic move on sTerm decrements the budget by one. -/
theorem claim_C8_witness :
    ({ stBase with logic_moves_remaining := 0 } : GameState).logic_moves_remaining ≤ 0 ∧
    (use_logic_move sTerm 0 0 (some 5) dC).1 = true ∧
    (0 : Int) ≤ stBase.logic_moves_remaining ∧
    (use_logic_move sTerm 0 0 (some 5) dC).2.logic_moves_remaining =
      sTerm.logic_moves_remaining - 1 :=
  ⟨by decide, by decide, by decide,
    (claim_C8 "medium" { stBase with logic_moves_remaining := 0 } 0 0 none dC
      stBase 0 0 none dC sTerm 0 0 (some 5) dC stBase 0 0 none dC
      stBase 0 0 5 0 0 (fun _ => 0) stBase aR0 stBase 0 0 none 0 (fun _ => 0)
      (by decide) (by decide) (by decide)).2.2.2.1⟩

theorem QCell.collapse_fields {c : QCell} {v : Option Nat} {i : Nat} {c' : QCell}
    (h : c.collapse v i = some c') :
    c'.collapsed = true ∧ c'.superposition = [] ∧
    c'.entangled_with = c.entangled_with ∧ c'.locked = c.locked := by
  unfold QCell.collapse at h
  split at h
  · cases h
  · cases v with
    | none =>
      cases h
      exact ⟨rfl, rfl, rfl, rfl⟩
    | some x =>
      dsimp only at h
      split at h
      · cases h
        exact ⟨rfl, rfl, rfl, rfl⟩
      · cases h

theorem QCell.collapse_some_value {c : QCell} {x : Nat} {i : Nat} {c' : QCell}
    (h : c.collapse (some x) i = some c') : c'.value = x := by
  unfold QCell.collapse at h
  split at h
  · cases h
  · dsimp only at h
    split at h
    · cases h
      rfl
    · cases h

theorem QCell.collapse_of_quantum_mem {c : QCell} {x : Nat}
    (hq : c.is_quantum = true) (hx : c.superposition.contains x = true) (i : Nat) :
    ∃ c', c.collapse (some x) i = some c' := by
  unfold QCell.collapse
  have h1 : ¬(c.superposition.isEmpty || c.collapsed) = true := by
    unfold QCell.is_quantum at hq
    simp only [Bool.and_eq_true, Bool.not_eq_true'] at hq
    simp [hq.1, hq.2]
  rw [if_neg h1]
  dsimp only
  rw [if_pos hx]
  exact ⟨_, rfl⟩

theorem QCell.collapse_none_of_quantum {c : QCell} (hq : c.is_quantum = true)
    (i : Nat) : ∃ c', c.collapse none i = some c' := by
  unfold QCell.collapse
  have h1 : ¬(c.superposition.isEmpty || c.collapsed) = true := by
    unfold QCell.is_quantum at hq
    simp only [Bool.and_eq_true, Bool.not_eq_true'] at hq
    simp [hq.1, hq.2]
  rw [if_neg h1]
  exact ⟨_, rfl⟩

/-- Claim C3 (amended): collapsing a member of a 2-member entanglement
group through collapse_quantum_cell (the path taken by make_move, and
mirrored verbatim by ai_move) leaves both members resolved, and the peer
takes the collapsed value whenever that value is among its candidates;
use_logic_move, however, collapses without propagation (see the
counterexample). -/
theorem claim_C3 (s s' : GameState) (row col pr pc : Nat) (v : Option Nat)
    (i : Nat) (f : Nat → Nat)
    (hb : boardWF s.board) (hrow : row < 9) (hcol : col < 9)
    (hpr : pr < 9) (hpc : pc < 9)
    (hne : (pr, pc) ≠ (row, col))
    (hent : (getCell s.board row col).entangled_with = [(pr, pc)])
    (hpq : (getCell s.board pr pc).is_quantum = true)
    (hsucc : collapse_quantum_cell s row col v i f = some s') :
    (getCell s'.board row col).collapsed = true ∧
    (getCell s'.board pr pc).collapsed = true ∧
    ((getCell s.board pr pc).superposition.contains (getCell s'.board row col).value = true →
      (getCell s'.board pr pc).value = (getCell s'.board row col).value) := by
  unfold collapse_quantum_cell at hsucc
  dsimp only at hsucc
  split at hsucc
  · cases hsucc
  · rename_i hq
    rw [Bool.not_eq_true', Bool.not_eq_false] at hq
    rcases hcres : (getCell s.board row col).collapse v i with _ | c1
    · rw [hcres] at hsucc
      cases hsucc
    · rw [hcres] at hsucc
      dsimp only at hsucc
      rw [hent] at hsucc
      obtain ⟨hc1col, hc1sup, hc1ent, hc1lock⟩ := QCell.collapse_fields hcres
      cases hsucc
      unfold collapse_peers
      dsimp only
      set b1 := setCell s.board row col c1 with hb1
      have hb1wf : boardWF b1 := boardWF_setCell _ hb
      have hpeer : getCell b1 pr pc = getCell s.board pr pc :=
        getCell_setCell_ne _ _ hne
      rw [hpeer, if_pos hpq]
      by_cases hmem : (getCell s.board pr pc).superposition.contains c1.value = true
      · rw [if_pos hmem]
        obtain ⟨c2, hc2⟩ := QCell.collapse_of_quantum_mem hpq hmem 0
        rw [hc2]
        unfold collapse_peers
        have hread1 : getCell (setCell b1 pr pc c2) row col = c1 := by
          rw [getCell_setCell_ne _ _ (fun h => hne h.symm)]
          exact getCell_setCell_self _ hb hrow hcol
        have hread2 : getCell (setCell b1 pr pc c2) pr pc = c2 :=
          getCell_setCell_self _ hb1wf hpr hpc
        rw [hread1, hread2]
        refine ⟨hc1col, (QCell.collapse_fields hc2).1, fun _ => ?_⟩
        exact QCell.collapse_some_value hc2
      · rw [if_neg hmem]
        obtain ⟨c2, hc2⟩ := QCell.collapse_none_of_quantum hpq (f 0)
        rw [hc2]
        unfold collapse_peers
        have hread1 : getCell (setCell b1 pr pc c2) row col = c1 := by
          rw [getCell_setCell_ne _ _ (fun h => hne h.symm)]
          exact getCell_setCell_self _ hb hrow hcol
        have hread2 : getCell (setCell b1 pr pc c2) pr pc = c2 :=
          getCell_setCell_self _ hb1wf hpr hpc
        rw [hread1, hread2]
        refine ⟨hc1col, (QCell.collapse_fields hc2).1, fun hmem' => ?_⟩
        exact absurd hmem' hmem

/-- Witness for the amended C3 at the concrete entangled pair of sEnt. -/
theorem claim_C3_witness :
    boardWF sEnt.board ∧
    (getCell sEnt.board 0 0).entangled_with = [(2, 2)] ∧
    (getCell sEnt.board 2 2).is_quantum = true ∧
    collapse_quantum_cell sEnt 0 0 (some 5) 0 (fun _ => 0) = some sEntC ∧
    ((getCell sEntC.board 0 0).collapsed = true ∧
     (getCell sEntC.board 2 2).collapsed = true ∧
     ((getCell sEnt.board 2 2).superposition.contains (getCell sEntC.board 0 0).value = true →
       (getCell sEntC.board 2 2).value = (getCell sEntC.board 0 0).value)) :=
  ⟨by decide, by decide, by decide, by decide,
    claim_C3 sEnt sEntC 0 0 2 2 (some 5) 0 (fun _ => 0) (by decide) (by decide)
      (by decide) (by decide) (by decide) (by decide) (by decide) (by decide)
      (by decide)⟩

/-- Counterexample to C3 as stated: a logic move collapsing one member of
a 2-member entanglement group of superposed cells performs no
propagation, leaving the peer unresolved even though the collapsed value
5 is among the peer's candidates. -/
theorem claim_C3_counterexample :
    (getCell sEnt.board 0 0).is_quantum = true ∧
    (getCell sEnt.board 0 0).entangled_with = [(2, 2)] ∧
    (getCell sEnt.board 2 2).is_quantum = true ∧
    (use_logic_move sEnt 0 0 (some 5) dC).1 = true ∧
    (getCell (use_logic_move sEnt 0 0 (some 5) dC).2.board 0 0).collapsed = true ∧
    (getCell (use_logic_move sEnt 0 0 (some 5) dC).2.board 0 0).value = 5 ∧
    (getCell sEnt.board 2 2).superposition.contains 5 = true ∧
    (getCell (use_logic_move sEnt 0 0 (some 5) dC).2.board 2 2).collapsed = false := by
  decide

theorem check_ai_loop_congr (s : GameState) (l : List (Nat × Nat)) :
    (check_ai_loop { s with game_over := true } l).1 = (check_ai_loop s l).1 ∧
    (check_ai_loop { s with game_over := true } l).2.ai_mistakes =
      (check_ai_loop s l).2.ai_mistakes := by
  induction l with
  | nil => exact ⟨rfl, rfl⟩
  | cons hd tl ih =>
    obtain ⟨row, col⟩ := hd
    unfold check_ai_loop
    dsimp only
    split
    · split
      · exact ⟨rfl, rfl⟩
      · exact ih
    · exact ih

theorem check_ai_moves_pm (s : GameState) :
    (check_ai_moves s).2.player_mistakes = s.player_mistakes := by
  unfold check_ai_moves
  rcases check_ai_loop_shape s allCoords with h | h <;> rw [h]

theorem check_ai_moves_go (s : GameState) :
    (check_ai_moves s).2.game_over = s.game_over := by
  unfold check_ai_moves
  rcases check_ai_loop_shape s allCoords with h | h <;> rw [h]

theorem check_ai_moves_false_am (s : GameState)
    (h : (check_ai_moves s).1 = false) :
    (check_ai_moves s).2.ai_mistakes = s.ai_mistakes + 1 := by
  unfold check_ai_moves at h ⊢
  rcases check_ai_loop_shape s allCoords with hs | hs
  · rw [hs] at h
    cases h
  · rw [hs]

theorem check_game_over_go (s : GameState) (h : all_filled s = true) :
    (check_game_over s).game_over = true := by
  unfold check_game_over
  rw [if_neg (by simp [h])]
  dsimp only
  split_ifs <;> simp [check_ai_moves_go]

theorem check_game_over_winner (s : GameState) (h : all_filled s = true) :
    (check_game_over s).winner =
      some (winnerSpec (is_board_solved s) (check_ai_moves s).1
        s.player_mistakes (check_ai_moves s).2.ai_mistakes) := by
  unfold check_game_over
  rw [if_neg (by simp [h])]
  dsimp only
  have hpc : is_board_solved { s with game_over := true } = is_board_solved s := rfl
  have hcongr := check_ai_loop_congr s allCoords
  have hfst : (check_ai_moves { s with game_over := true }).1 = (check_ai_moves s).1 :=
    hcongr.1
  have ham : (check_ai_moves { s with game_over := true }).2.ai_mistakes =
      (check_ai_moves s).2.ai_mistakes := hcongr.2
  have hpm : (check_ai_moves { s with game_over := true }).2.player_mistakes =
      s.player_mistakes := check_ai_moves_pm _
  rw [hpc, hfst, ham, hpm]
  unfold winnerSpec
  split_ifs <;> simp_all

theorem check_game_over_am (s : GameState) (h : all_filled s = true) :
    (check_game_over s).ai_mistakes = (check_ai_moves s).2.ai_mistakes := by
  unfold check_game_over
  rw [if_neg (by simp [h])]
  dsimp only
  have ham : (check_ai_moves { s with game_over := true }).2.ai_mistakes =
      (check_ai_moves s).2.ai_mistakes := (check_ai_loop_congr s allCoords).2
  split_ifs <;> simpa using ham

/-- Claim C4: when the board is full, check_game_over marks the game over
and picks the winner by the spec precedence: validity-only-player gives
Player, scan-only-AI gives AI, otherwise the strictly smaller mistake
counter wins and equal counters draw (the counters as they stand after
the AI scan ran). -/
theorem claim_C4 (s : GameState) (h : all_filled s = true) :
    (check_game_over s).game_over = true ∧
    (check_game_over s).winner =
      some (winnerSpec (is_board_solved s) (check_ai_moves s).1
        s.player_mistakes (check_ai_moves s).2.ai_mistakes) :=
  ⟨check_game_over_go s h, check_game_over_winner s h⟩

/-- Witness for C4 at the fully solved, mistake-free concrete state
(both verdicts pass, equal counters, so the winner is a draw). -/
theorem claim_C4_witness :
    all_filled stBase = true ∧
    ((check_game_over stBase).game_over = true ∧
     (check_game_over stBase).winner =
       some (winnerSpec (is_board_solved stBase) (check_ai_moves stBase).1
         stBase.player_mistakes (check_ai_moves stBase).2.ai_mistakes)) :=
  ⟨by decide, claim_C4 stBase (by decide)⟩

/-- Claim C10: the end-of-game AI scan is not read-only: when it reports
the AI incorrect it has incremented the AI mistake counter by one, and
the winner comparison in check_game_over sees the incremented counter. -/
theorem claim_C10 (s : GameState) (h : all_filled s = true)
    (hbad : (check_ai_moves s).1 = false) :
    (check_ai_moves s).2.ai_mistakes = s.ai_mistakes + 1 ∧
    (check_game_over s).ai_mistakes = s.ai_mistakes + 1 ∧
    (check_game_over s).winner =
      some (winnerSpec (is_board_solved s) false
        s.player_mistakes (s.ai_mistakes + 1)) := by
  have ham := check_ai_moves_false_am s hbad
  refine ⟨ham, ?_, ?_⟩
  · rw [check_game_over_am s h, ham]
  · rw [check_game_over_winner s h, hbad, ham]

/-- Witness for C10 at a full concrete board whose (0,0) value collides
with (0,1): the scan reports the AI incorrect and bumps its counter from
0 to 1. -/
theorem claim_C10_witness :
    all_filled sBad = true ∧
    (check_ai_moves sBad).1 = false ∧
    ((check_ai_moves sBad).2.ai_mistakes = sBad.ai_mistakes + 1 ∧
     (check_game_over sBad).ai_mistakes = sBad.ai_mistakes + 1 ∧
     (check_game_over sBad).winner =
       some (winnerSpec (is_board_solved sBad) false
         sBad.player_mistakes (sBad.ai_mistakes + 1))) :=
  ⟨by decide, by decide, claim_C10 sBad (by decide) (by decide)⟩

theorem count_try_ge (k : Grid → Nat) (g : Grid) (row col : Nat) :
    ∀ (nums : List Nat) (acc : Nat), acc ≤ count_try k g row col nums acc := by
  intro nums
  induction nums with
  | nil => intro acc; exact Nat.le_refl _
  | cons n rest ih =>
    intro acc
    unfold count_try
    dsimp only
    split
    · split
      · omega
      · exact Nat.le_trans (Nat.le_add_right _ _) (ih _)
    · exact ih acc

theorem count_all_try_ge (k : Grid → Nat) (g : Grid) (row col : Nat) :
    ∀ (nums : List Nat) (acc : Nat), acc ≤ count_all_try k g row col nums acc := by
  intro nums
  induction nums with
  | nil => intro acc; exact Nat.le_refl _
  | cons n rest ih =>
    intro acc
    unfold count_all_try
    split
    · exact Nat.le_trans (Nat.le_add_right _ _) (ih _)
    · exact ih acc

theorem count_try_rel (k1 k2 : Grid → Nat) (g : Grid) (row col : Nat)
    (hk : ∀ g', k1 g' ≤ k2 g' ∧ (k1 g' ≤ 1 → k1 g' = k2 g')) :
    ∀ (nums : List Nat) (acc : Nat),
      count_try k1 g row col nums acc ≤ count_all_try k2 g row col nums acc ∧
      (count_try k1 g row col nums acc ≤ 1 →
        count_try k1 g row col nums acc = count_all_try k2 g row col nums acc) := by
  intro nums
  induction nums with
  | nil => intro acc; exact ⟨Nat.le_refl _, fun _ => rfl⟩
  | cons n rest ih =>
    intro acc
    unfold count_try count_all_try
    dsimp only
    split
    · by_cases h1 : 1 < acc + k1 (setVal g row col n)
      · rw [if_pos h1]
        have hle : acc + k1 (setVal g row col n) ≤ acc + k2 (setVal g row col n) :=
          Nat.add_le_add_left (hk _).1 _
        refine ⟨Nat.le_trans hle (count_all_try_ge _ _ _ _ _ _), fun hc => ?_⟩
        omega
      · rw [if_neg h1]
        have hsmall : k1 (setVal g row col n) ≤ 1 := by omega
        have heq : k1 (setVal g row col n) = k2 (setVal g row col n) :=
          (hk _).2 hsmall
        rw [← heq]
        exact ih _
    · exact ih acc

theorem count_rel (fuel : Nat) (g : Grid) :
    count_solutions fuel g ≤ count_all fuel g ∧
    (count_solutions fuel g ≤ 1 → count_solutions fuel g = count_all fuel g) := by
  induction fuel generalizing g with
  | zero => exact ⟨Nat.le_refl _, fun _ => rfl⟩
  | succ fuel ih =>
    unfold count_solutions count_all
    match hfe : find_empty_grid g with
    | none => exact ⟨Nat.le_refl _, fun _ => rfl⟩
    | some (row, col) =>
      exact count_try_rel (count_solutions fuel) (count_all fuel) g row col
        (fun g' => ih g') _ _

/-- Claim C6 (amended): count_solutions stops exploring as soon as its
accumulated count exceeds 1, but the early-returned value can exceed 2
(see the counterexample, which returns 3); what holds is that the
returned value never exceeds the exhaustive backtracking count, matches
it exactly whenever the returned value is at most 1 (in particular on
grids with zero or one solutions), and is at least 2 exactly when the
exhaustive count is. -/
theorem claim_C6 (fuel1 : Nat) (g1 : Grid) (fuel2 : Nat) (g2 : Grid)
    (fuel3 : Nat) (g3 : Grid)
    (h2 : count_solutions fuel2 g2 ≤ 1)
    (h3 : 2 ≤ count_all fuel3 g3) :
    count_solutions fuel1 g1 ≤ count_all fuel1 g1 ∧
    count_solutions fuel2 g2 = count_all fuel2 g2 ∧
    2 ≤ count_solutions fuel3 g3 := by
  refine ⟨(count_rel fuel1 g1).1, (count_rel fuel2 g2).2 h2, ?_⟩
  by_cases hc : count_solutions fuel3 g3 ≤ 1
  · have := (count_rel fuel3 g3).2 hc
    omega
  · omega

/-- Witness for the amended C6: on the unique-solution grid the counter
agrees with the exhaustive count, and on the three-solution grid the
capped counter still reports at least 2. -/
theorem claim_C6_witness :
    count_solutions 82 gUVals ≤ 1 ∧
    2 ≤ count_all 82 g3Vals ∧
    (count_solutions 82 gUVals ≤ count_all 82 gUVals ∧
     count_solutions 82 gUVals = count_all 82 gUVals ∧
     2 ≤ count_solutions 82 g3Vals) :=
  ⟨by decide, by decide,
    claim_C6 82 gUVals 82 gUVals 82 g3Vals (by decide) (by decide)⟩

/-- Counterexample to C6 as stated: count_solutions returns 3 on this
grid, exceeding the claimed cap of 2 (a first branch contributes exactly
one solution, then a later branch's early-stopped 2 is added). -/
theorem claim_C6_counterexample : count_solutions 82 g3Vals = 3 := by
  decide

theorem getCell_eq (b : Board) (r c : Nat) :
    getCell b r c = (((b[r]?).getD [])[c]?).getD QCell.init := by
  simp [getCell, List.getD_eq_getElem?_getD]

theorem getCell_lock_givens (b : Board) (r c : Nat) :
    getCell (lock_givens b) r c =
      (if (getCell b r c).value != 0 then { getCell b r c with locked := true }
       else getCell b r c) := by
  rw [getCell_eq, getCell_eq]
  unfold lock_givens
  rw [List.getElem?_map]
  cases hb : b[r]? with
  | none => simp [QCell.init]
  | some row =>
    simp only [Option.map_some', Option.getD_some]
    rw [List.getElem?_map]
    cases hc : row[c]? with
    | none => simp [QCell.init]
    | some cell => simp only [Option.map_some', Option.getD_some]

theorem lockedNonzero_lock_givens (b : Board) :
    lockedNonzero (lock_givens b) = true := by
  unfold lockedNonzero
  rw [List.all_eq_true]
  intro rc _
  rw [getCell_lock_givens]
  by_cases h : (getCell b rc.1 rc.2).value != 0
  · simp [h]
  · rw [if_neg h]
    simp only [bne_iff_ne, ne_eq, Decidable.not_not] at h
    simp [h]

theorem create_quantum_cells_locked (s : GameState) (n : Nat) (r : QRand)
    (hsh : (r.shuffle []).Perm []) (hb : lockedNonzero s.board = true) :
    create_quantum_cells s n r = s := by
  unfold create_quantum_cells
  have hfil : (allCoords.filter fun rc =>
      !(getCell s.board rc.1 rc.2).locked &&
        (getCell s.board rc.1 rc.2).value != 0 &&
        !(getCell s.board rc.1 rc.2).is_quantum) = [] := by
    rw [List.filter_eq_nil_iff]
    intro rc hrc
    unfold lockedNonzero at hb
    rw [List.all_eq_true] at hb
    have hcell := hb rc hrc
    simp only [Bool.or_eq_true, beq_iff_eq] at hcell
    intro hpred
    simp only [Bool.and_eq_true, Bool.not_eq_true', bne_iff_ne, ne_eq] at hpred
    obtain ⟨⟨hl, hv⟩, _⟩ := hpred
    rcases hcell with h | h
    · exact hv h
    · rw [hl] at h
      cases h
  rw [hfil]
  dsimp only
  rw [hsh.eq_nil, List.take_nil]
  rfl

/-- Claim C7 (code bug): after create_puzzle every nonzero cell is
locked, so the candidate pool of create_quantum_cells (unlocked, nonzero,
not yet quantum cells) is empty and the quantum-selection step converts
zero cells, not ten; the conversion call returns the state unchanged. -/
theorem claim_C7 (difficulty : String) (order : List (Nat × Nat)) (b0 : Board)
    (s : GameState) (n : Nat) (r : QRand)
    (hsh : (r.shuffle []).Perm []) (hb : lockedNonzero s.board = true) :
    lockedNonzero (create_puzzle difficulty order b0) = true ∧
    create_quantum_cells s n r = s :=
  ⟨lockedNonzero_lock_givens _, create_quantum_cells_locked s n r hsh hb⟩

/-- Witness for C7: the concrete medium setup state converts nothing. -/
theorem claim_C7_witness :
    (qr0.shuffle []).Perm [] ∧ lockedNonzero stLocked.board = true ∧
    (lockedNonzero (create_puzzle "medium" [] (mkB gSolVals)) = true ∧
     create_quantum_cells stLocked 10 qr0 = stLocked) :=
  ⟨List.Perm.refl [], by decide,
    claim_C7 "medium" [] (mkB gSolVals) stLocked 10 qr0 (List.Perm.refl [])
      (by decide)⟩

theorem getD_mem {α : Type} (l : List α) (i : Nat) (d : α) (h : i < l.length) :
    l.getD i d ∈ l := by
  rw [List.getD_eq_getElem?_getD, List.getElem?_eq_getElem h]
  exact List.getElem_mem h

theorem not_quantum_of_collapsed {c : QCell} (h : c.collapsed = true) :
    c.is_quantum = false := by
  unfold QCell.is_quantum
  rw [h]
  simp

theorem collapse_peers_frame (lr lc : Nat) (v : Nat) (f : Nat → Nat) :
    ∀ (l : List (Nat × Nat)) (k : Nat) (b : Board),
      (getCell b lr lc).collapsed = true →
      getCell (collapse_peers v f l k b) lr lc = getCell b lr lc := by
  intro l
  induction l with
  | nil => intro k b _; rfl
  | cons hd tl ih =>
    obtain ⟨pr, pc⟩ := hd
    intro k b hcol
    unfold collapse_peers
    dsimp only
    by_cases hq : (getCell b pr pc).is_quantum = true
    · have hne : (lr, lc) ≠ (pr, pc) := by
        intro he
        rw [Prod.mk.injEq] at he
        rw [← he.1, ← he.2, not_quantum_of_collapsed hcol] at hq
        cases hq
      rw [if_pos hq]
      have hframe : ∀ c2 : QCell,
          getCell (setCell b pr pc c2) lr lc = getCell b lr lc :=
        fun c2 => getCell_setCell_ne _ _ hne
      split
      · split
        · rw [ih _ _ (by rw [hframe]; exact hcol), hframe]
        · exact ih _ _ hcol
      · split
        · rw [ih _ _ (by rw [hframe]; exact hcol), hframe]
        · exact ih _ _ hcol
    · rw [if_neg hq]
      exact ih _ _ hcol

theorem collapse_quantum_cell_frame (s : GameState) (lr lc row col : Nat)
    (v : Option Nat) (i : Nat) (f : Nat → Nat)
    (hCol : (getCell s.board lr lc).collapsed = true) :
    ((collapse_quantum_cell s row col v i f).map
      (fun s' => getCell s'.board lr lc)).getD (getCell s.board lr lc) =
      getCell s.board lr lc := by
  unfold collapse_quantum_cell
  dsimp only
  split
  · rfl
  · rename_i hq
    rw [Bool.not_eq_true', Bool.not_eq_false] at hq
    have hne : (lr, lc) ≠ (row, col) := by
      intro he
      rw [Prod.mk.injEq] at he
      rw [← he.1, ← he.2, not_quantum_of_collapsed hCol] at hq
      cases hq
    split
    · rfl
    · dsimp only [Option.map_some', Option.getD_some]
      rw [collapse_peers_frame _ _ _ _ _ _ _
        (by rw [getCell_setCell_ne _ _ hne]; exact hCol)]
      exact getCell_setCell_ne _ _ hne

theorem create_entanglement_frame (s : GameState) (row col i lr lc : Nat)
    (hne : (row, col) ≠ (lr, lc))
    (hCol : (getCell s.board lr lc).collapsed = true) :
    getCell (create_entanglement s row col i).board lr lc =
      getCell s.board lr lc := by
  unfold create_entanglement
  dsimp only
  split
  · rfl
  · rename_i hcand
    have hne0 : (allCoords.filter fun rc =>
        (rc.1 != row || rc.2 != col) && (getCell s.board rc.1 rc.2).is_quantum &&
          (getCell s.board rc.1 rc.2).entangled_with.isEmpty) ≠ [] := by
      simpa using hcand
    have hlen := List.length_pos.mpr hne0
    have hmem := getD_mem _ (i % (allCoords.filter fun rc =>
        (rc.1 != row || rc.2 != col) && (getCell s.board rc.1 rc.2).is_quantum &&
          (getCell s.board rc.1 rc.2).entangled_with.isEmpty).length)
      ((0, 0) : Nat × Nat) (Nat.mod_lt _ hlen)
    have hpred := (List.mem_filter.mp hmem).2
    simp only [Bool.and_eq_true] at hpred
    have hqpartner := hpred.1.2
    have hnep : (lr, lc) ≠
        (((allCoords.filter fun rc =>
          (rc.1 != row || rc.2 != col) && (getCell s.board rc.1 rc.2).is_quantum &&
            (getCell s.board rc.1 rc.2).entangled_with.isEmpty).getD
          (i % (allCoords.filter fun rc =>
            (rc.1 != row || rc.2 != col) && (getCell s.board rc.1 rc.2).is_quantum &&
              (getCell s.board rc.1 rc.2).entangled_with.isEmpty).length) (0, 0)).1,
         ((allCoords.filter fun rc =>
          (rc.1 != row || rc.2 != col) && (getCell s.board rc.1 rc.2).is_quantum &&
            (getCell s.board rc.1 rc.2).entangled_with.isEmpty).getD
          (i % (allCoords.filter fun rc =>
            (rc.1 != row || rc.2 != col) && (getCell s.board rc.1 rc.2).is_quantum &&
              (getCell s.board rc.1 rc.2).entangled_with.isEmpty).length) (0, 0)).2) := by
      intro he
      rw [Prod.mk.injEq] at he
      rw [← he.1, ← he.2, not_quantum_of_collapsed hCol] at hqpartner
      cases hqpartner
    rw [getCell_setCell_ne _ _ hnep,
      getCell_setCell_ne _ _ (fun h => hne h.symm)]

theorem check_game_over_board (s : GameState) :
    (check_game_over s).board = s.board := by
  rcases check_game_over_shape s with h | ⟨am, w, m, h⟩ <;> rw [h]

theorem use_logic_move_frame (s : GameState) (lr lc row col : Nat)
    (v : Option Nat) (d : LDraw)
    (hLk : (getCell s.board lr lc).locked = true)
    (hCol : (getCell s.board lr lc).collapsed = true) :
    getCell (use_logic_move s row col v d).2.board lr lc =
      getCell s.board lr lc := by
  unfold use_logic_move
  by_cases hb : s.logic_moves_remaining ≤ 0
  · rw [if_pos hb]
  · rw [if_neg hb]
    dsimp only
    by_cases hl : (getCell s.board row col).locked = true
    · rw [if_pos hl]
    · rw [if_neg hl]
      have hne : (row, col) ≠ (lr, lc) := by
        intro he
        rw [Prod.mk.injEq] at he
        rw [he.1, he.2] at hl
        exact hl hLk
      have hframe : ∀ q : QCell,
          getCell (setCell s.board row col q) lr lc = getCell s.board lr lc :=
        fun q => getCell_setCell_ne _ _ (fun h => hne h.symm)
      dsimp only
      split
      · split
        · exact hframe _
        · split
          · rw [create_entanglement_frame _ _ _ _ _ _ hne
              (by rw [hframe]; exact hCol)]
            exact hframe _
          · exact hframe _
      · split
        · exact hframe _
        · rfl

theorem make_move_frame (s : GameState) (lr lc row col value : Nat) (p : Rat)
    (i : Nat) (f : Nat → Nat)
    (hLk : (getCell s.board lr lc).locked = true)
    (hCol : (getCell s.board lr lc).collapsed = true) :
    ((make_move s row col value p i f).state?.map
      (fun s' => getCell s'.board lr lc)).getD (getCell s.board lr lc) =
      getCell s.board lr lc := by
  by_cases hl : (getCell s.board row col).locked = true
  · simp [make_move, hl, MoveOut.state?]
  · have hne : (row, col) ≠ (lr, lc) := by
      intro he
      rw [Prod.mk.injEq] at he
      rw [he.1, he.2] at hl
      exact hl hLk
    by_cases hc : (getCell s.board row col).collapsed = true
    · by_cases hv : ((getCell s.board row col).value == 0) = true
      · by_cases hval : is_valid_move s.using_logic_move s.board row col value true = true
        · simp only [make_move, hl, hc, hv, hval, if_true, if_false,
            Bool.false_eq_true, MoveOut.state?, Option.map_some', Option.getD_some,
            ite_true, ite_false, if_neg, if_pos]
          exact getCell_setCell_ne _ _ (fun h => hne h.symm)
        · simp [make_move, hl, hc, hv, hval, MoveOut.state?]
      · by_cases hp : p < (5 : Rat)⁻¹ <;>
          simp [make_move, hl, hc, hv, hp, one_div, MoveOut.state?]
    · have hcc := collapse_quantum_cell_frame s lr lc row col (some value) i f hCol
      rcases hval : collapse_quantum_cell s row col (some value) i f with _ | s'
      · simp [make_move, hl, hc, hval, MoveOut.state?]
      · rw [hval] at hcc
        simp only [Option.map_some', Option.getD_some] at hcc
        simp [make_move, hl, hc, hval, MoveOut.state?, hcc]

theorem ai_move_frame (s : GameState) (lr lc : Nat) (a : ARand)
    (hLk : (getCell s.board lr lc).locked = true)
    (hCol : (getCell s.board lr lc).collapsed = true)
    (hVal : (getCell s.board lr lc).value ≠ 0) :
    getCell (ai_move s a).board lr lc = getCell s.board lr lc := by
  unfold ai_move
  split
  · rfl
  · rw [check_game_over_board]
    dsimp only
    split
    · rename_i hqne
      have hne0 : (allCoords.filter fun rc =>
          (getCell s.board rc.1 rc.2).is_quantum) ≠ [] := by
        simpa using hqne
      have hlen := List.length_pos.mpr hne0
      have hmem := getD_mem _ (a.qIdx % (allCoords.filter fun rc =>
          (getCell s.board rc.1 rc.2).is_quantum).length)
        ((0, 0) : Nat × Nat) (Nat.mod_lt _ hlen)
      have hqpos := (List.mem_filter.mp hmem).2
      have hnep : (lr, lc) ≠
          (((allCoords.filter fun rc => (getCell s.board rc.1 rc.2).is_quantum).getD
            (a.qIdx % (allCoords.filter fun rc =>
              (getCell s.board rc.1 rc.2).is_quantum).length) (0, 0)).1,
           ((allCoords.filter fun rc => (getCell s.board rc.1 rc.2).is_quantum).getD
            (a.qIdx % (allCoords.filter fun rc =>
              (getCell s.board rc.1 rc.2).is_quantum).length) (0, 0)).2) := by
        intro he
        rw [Prod.mk.injEq] at he
        rw [← he.1, ← he.2, not_quantum_of_collapsed hCol] at hqpos
        cases hqpos
      rw [collapse_peers_frame _ _ _ _ _ _ _
        (by rw [getCell_setCell_ne _ _ hnep]; exact hCol)]
      exact getCell_setCell_ne _ _ hnep
    · split
      · rename_i hene
        have hne0 : (allCoords.filter fun rc =>
            (getCell s.board rc.1 rc.2).collapsed &&
              (getCell s.board rc.1 rc.2).value == 0) ≠ [] := by
          simpa using hene
        have hlen := List.length_pos.mpr hne0
        have hmem := getD_mem _ (a.eIdx % (allCoords.filter fun rc =>
            (getCell s.board rc.1 rc.2).collapsed &&
              (getCell s.board rc.1 rc.2).value == 0).length)
          ((0, 0) : Nat × Nat) (Nat.mod_lt _ hlen)
        have hepos := (List.mem_filter.mp hmem).2
        simp only [Bool.and_eq_true, beq_iff_eq] at hepos
        have hnep : (lr, lc) ≠
            (((allCoords.filter fun rc =>
              (getCell s.board rc.1 rc.2).collapsed &&
                (getCell s.board rc.1 rc.2).value == 0).getD
              (a.eIdx % (allCoords.filter fun rc =>
                (getCell s.board rc.1 rc.2).collapsed &&
                  (getCell s.board rc.1 rc.2).value == 0).length) (0, 0)).1,
             ((allCoords.filter fun rc =>
              (getCell s.board rc.1 rc.2).collapsed &&
                (getCell s.board rc.1 rc.2).value == 0).getD
              (a.eIdx % (allCoords.filter fun rc =>
                (getCell s.board rc.1 rc.2).collapsed &&
                  (getCell s.board rc.1 rc.2).value == 0).length) (0, 0)).2) := by
          intro he
          rw [Prod.mk.injEq] at he
          rw [← he.1, ← he.2] at hepos
          exact hVal hepos.2
        split
        · exact getCell_setCell_ne _ _ hnep
        · exact getCell_setCell_ne _ _ hnep
      · rfl

theorem convert_cells_frame (d : QDraw) (lr lc : Nat) :
    ∀ (l : List (Nat × Nat)) (k : Nat) (s : GameState),
      (∀ rc ∈ l, rc ≠ (lr, lc)) →
      (getCell s.board lr lc).collapsed = true →
      getCell (convert_cells d l k s).board lr lc = getCell s.board lr lc := by
  intro l
  induction l with
  | nil => intro k s _ _; rfl
  | cons hd tl ih =>
    obtain ⟨row, col⟩ := hd
    intro k s hl hCol
    have hne : (row, col) ≠ (lr, lc) := hl _ (List.mem_cons_self _ _)
    have htl : ∀ rc ∈ tl, rc ≠ (lr, lc) :=
      fun rc hrc => hl rc (List.mem_cons_of_mem _ hrc)
    have hframe : ∀ q : QCell,
        getCell (setCell s.board row col q) lr lc = getCell s.board lr lc :=
      fun q => getCell_setCell_ne _ _ (fun h => hne h.symm)
    unfold convert_cells
    dsimp only
    split
    · split
      · rw [ih _ _ htl (by
          rw [create_entanglement_frame _ _ _ _ _ _ hne (by rw [hframe]; exact hCol)]
          rw [hframe]
          exact hCol)]
        rw [create_entanglement_frame _ _ _ _ _ _ hne (by rw [hframe]; exact hCol)]
        exact hframe _
      · rw [ih _ _ htl (by rw [hframe]; exact hCol)]
        exact hframe _
    · exact ih _ _ htl hCol

theorem create_quantum_cells_frame (s : GameState) (lr lc n : Nat) (r : QRand)
    (hsh : ∀ l, (r.shuffle l).Perm l)
    (hLk : (getCell s.board lr lc).locked = true)
    (hCol : (getCell s.board lr lc).collapsed = true) :
    getCell (create_quantum_cells s n r).board lr lc = getCell s.board lr lc := by
  unfold create_quantum_cells
  dsimp only
  apply convert_cells_frame _ _ _ _ _ _ _ hCol
  intro rc hrc
  have h1 : rc ∈ r.shuffle (allCoords.filter fun rc =>
      !(getCell s.board rc.1 rc.2).locked &&
        (getCell s.board rc.1 rc.2).value != 0 &&
        !(getCell s.board rc.1 rc.2).is_quantum) :=
    List.take_subset _ _ hrc
  have h2 := ((hsh _).mem_iff).mp h1
  have hpred := (List.mem_filter.mp h2).2
  intro he
  rw [he] at hpred
  simp only [Bool.and_eq_true, Bool.not_eq_true'] at hpred
  rw [hLk] at hpred
  cases hpred.1.1

/-- Claim C9: a cell locked at puzzle creation (locked, resolved, with a
nonzero value, empty candidate set) is left exactly as it is by every
command: a player move targeting it is rejected with the state (and both
mistake counters) unchanged, and make_move, use_logic_move, ai_move,
collapse_quantum_cell, create_quantum_cells and create_entanglement all
leave the full cell record at its position unchanged whatever their
target. -/
theorem claim_C9 (s : GameState) (lr lc : Nat)
    (hLk : (getCell s.board lr lc).locked = true)
    (hCol : (getCell s.board lr lc).collapsed = true)
    (hVal : (getCell s.board lr lc).value ≠ 0)
    (vL value : Nat) (pL p : Rat) (iL i : Nat) (fL f : Nat → Nat)
    (row col : Nat) (vo : Option Nat) (d : LDraw) (a : ARand)
    (n : Nat) (r : QRand) (hsh : ∀ l, (r.shuffle l).Perm l)
    (ce_row ce_col ce_i : Nat) (hce : (ce_row, ce_col) ≠ (lr, lc)) :
    make_move s lr lc vL pL iL fL = MoveOut.ret false s ∧
    ((make_move s row col value p i f).state?.map
      (fun s' => getCell s'.board lr lc)).getD (getCell s.board lr lc) =
      getCell s.board lr lc ∧
    getCell (use_logic_move s row col vo d).2.board lr lc =
      getCell s.board lr lc ∧
    getCell (ai_move s a).board lr lc = getCell s.board lr lc ∧
    ((collapse_quantum_cell s row col vo i f).map
      (fun s' => getCell s'.board lr lc)).getD (getCell s.board lr lc) =
      getCell s.board lr lc ∧
    getCell (create_quantum_cells s n r).board lr lc = getCell s.board lr lc ∧
    getCell (create_entanglement s ce_row ce_col ce_i).board lr lc =
      getCell s.board lr lc :=
  ⟨by simp [make_move, hLk],
    make_move_frame s lr lc row col value p i f hLk hCol,
    use_logic_move_frame s lr lc row col vo d hLk hCol,
    ai_move_frame s lr lc a hLk hCol hVal,
    collapse_quantum_cell_frame s lr lc row col vo i f hCol,
    create_quantum_cells_frame s lr lc n r hsh hLk hCol,
    create_entanglement_frame s ce_row ce_col ce_i lr lc hce hCol⟩

/-- Witness for C9 at a concrete board whose (0,0) is a locked given and
whose (1,1) is superposed. -/
theorem claim_C9_witness :
    (getCell sW9.board 0 0).locked = true ∧
    (getCell sW9.board 0 0).collapsed = true ∧
    (getCell sW9.board 0 0).value ≠ 0 ∧
    ((1, 1) : Nat × Nat) ≠ (0, 0) ∧
    (make_move sW9 0 0 5 0 0 (fun _ => 0) = MoveOut.ret false sW9 ∧
     ((make_move sW9 1 1 5 0 0 (fun _ => 0)).state?.map
       (fun s' => getCell s'.board 0 0)).getD (getCell sW9.board 0 0) =
       getCell sW9.board 0 0 ∧
     getCell (use_logic_move sW9 1 1 (some 5) dC).2.board 0 0 =
       getCell sW9.board 0 0 ∧
     getCell (ai_move sW9 aR0).board 0 0 = getCell sW9.board 0 0 ∧
     ((collapse_quantum_cell sW9 1 1 (some 5) 0 (fun _ => 0)).map
       (fun s' => getCell s'.board 0 0)).getD (getCell sW9.board 0 0) =
       getCell sW9.board 0 0 ∧
     getCell (create_quantum_cells sW9 10 qr0).board 0 0 =
       getCell sW9.board 0 0 ∧
     getCell (create_entanglement sW9 1 1 0).board 0 0 =
       getCell sW9.board 0 0) :=
  ⟨by decide, by decide, by decide, by decide,
    claim_C9 sW9 0 0 (by decide) (by decide) (by decide) 5 5 0 0 0 0
      (fun _ => 0) (fun _ => 0) 1 1 (some 5) dC aR0 10 qr0
      (fun l => List.Perm.refl l) 1 1 0 (by decide)⟩

theorem sees_symm {row col r c : Nat} (h : sees row col r c) : sees r c row col := by
  unfold sees at *
  omega

theorem ite_false_chain (A B C D E : Bool) :
    ((if A = true then false
      else if B = true then false
      else if C = true then false
      else if D = true then false
      else if E = true then false
      else true) = true) ↔
      (A = false ∧ B = false ∧ C = false ∧ D = false ∧ E = false) := by
  cases A <;> cases B <;> cases C <;> cases D <;> cases E <;> simp

theorem ivm_char (b : Board) (row col num : Nat) (hrow : row < 9) (hcol : col < 9) :
    is_valid_move false b row col num false = true ↔
      ∀ r, r < 9 → ∀ c, c < 9 → sees row col r c →
        ¬((getCell b r c).collapsed = true ∧ (getCell b r c).value = num) := by
  unfold is_valid_move
  rw [if_neg (by simp)]
  dsimp only
  rw [ite_false_chain]
  constructor
  · rintro ⟨hA, hB, hC, hD, hE⟩ r hr c hc ⟨hne, hdisj⟩ ⟨hcold, hvald⟩
    have hbad : ((getCell b r c).collapsed && (getCell b r c).value == num ||
        false && (getCell b r c).is_quantum &&
          (getCell b r c).superposition.contains num) = true := by
      simp [hcold, hvald]
    rcases hdisj with h | h | h | h | h
    · subst h
      apply absurd hA
      rw [Bool.not_eq_false, List.any_eq_true]
      refine ⟨c, List.mem_range.mpr hc, ?_⟩
      rw [Bool.and_eq_true]
      have hcne : c ≠ col := fun hcc => hne ⟨rfl, hcc⟩
      exact ⟨by simpa using hcne, hbad⟩
    · subst h
      apply absurd hB
      rw [Bool.not_eq_false, List.any_eq_true]
      refine ⟨r, List.mem_range.mpr hr, ?_⟩
      rw [Bool.and_eq_true]
      have hrne : r ≠ row := fun hrr => hne ⟨hrr, rfl⟩
      exact ⟨by simpa using hrne, hbad⟩
    · apply absurd hC
      rw [Bool.not_eq_false, List.any_eq_true]
      refine ⟨r - (row / 3) * 3, List.mem_range.mpr (by omega), ?_⟩
      rw [List.any_eq_true]
      refine ⟨c - (col / 3) * 3, List.mem_range.mpr (by omega), ?_⟩
      have hr3 : (row / 3) * 3 + (r - (row / 3) * 3) = r := by omega
      have hc3 : (col / 3) * 3 + (c - (col / 3) * 3) = c := by omega
      rw [hr3, hc3, Bool.and_eq_true]
      refine ⟨?_, hbad⟩
      rw [Bool.or_eq_true]
      by_cases hrr : r = row
      · right
        have : c ≠ col := fun hcc => hne ⟨hrr, hcc⟩
        simpa using this
      · left
        simpa using hrr
    · apply absurd hD
      rw [Bool.not_eq_false, Bool.and_eq_true]
      have hrne : r ≠ row := by
        intro hrr
        exact hne ⟨hrr, by omega⟩
      refine ⟨by simpa using h.1, ?_⟩
      rw [List.any_eq_true]
      refine ⟨r, List.mem_range.mpr hr, ?_⟩
      rw [Bool.and_eq_true]
      refine ⟨by simpa using hrne, ?_⟩
      rw [← h.2] at hbad
      exact hbad
    · apply absurd hE
      rw [Bool.not_eq_false, Bool.and_eq_true]
      have hrne : r ≠ row := by
        intro hrr
        exact hne ⟨hrr, by omega⟩
      refine ⟨by simpa using h.1, ?_⟩
      rw [List.any_eq_true]
      refine ⟨r, List.mem_range.mpr hr, ?_⟩
      rw [Bool.and_eq_true]
      refine ⟨by simpa using hrne, ?_⟩
      have hc8 : 8 - r = c := by omega
      rw [hc8]
      exact hbad
  · intro H
    have hnotbad : ∀ r, r < 9 → ∀ c, c < 9 → sees row col r c →
        ((getCell b r c).collapsed && (getCell b r c).value == num ||
          false && (getCell b r c).is_quantum &&
            (getCell b r c).superposition.contains num) = false := by
      intro r hr c hc hsee
      rw [Bool.eq_false_iff]
      intro hbad
      rw [Bool.or_eq_true] at hbad
      rcases hbad with hbad | hbad
      · rw [Bool.and_eq_true] at hbad
        exact H r hr c hc hsee ⟨hbad.1, by simpa using hbad.2⟩
      · simp at hbad
    refine ⟨?_, ?_, ?_, ?_, ?_⟩
    · rw [Bool.eq_false_iff]
      intro hA
      rw [List.any_eq_true] at hA
      obtain ⟨c, hcmem, hcc⟩ := hA
      rw [Bool.and_eq_true] at hcc
      have hcne : c ≠ col := by simpa using hcc.1
      rw [hnotbad row hrow c (List.mem_range.mp hcmem)
        ⟨fun hp => hcne hp.2, Or.inl rfl⟩] at hcc
      exact Bool.false_ne_true hcc.2
    · rw [Bool.eq_false_iff]
      intro hB
      rw [List.any_eq_true] at hB
      obtain ⟨r, hrmem, hrr⟩ := hB
      rw [Bool.and_eq_true] at hrr
      have hrne : r ≠ row := by simpa using hrr.1
      rw [hnotbad r (List.mem_range.mp hrmem) col hcol
        ⟨fun hp => hrne hp.1, Or.inr (Or.inl rfl)⟩] at hrr
      exact Bool.false_ne_true hrr.2
    · rw [Bool.eq_false_iff]
      intro hC
      rw [List.any_eq_true] at hC
      obtain ⟨i, himem, hi⟩ := hC
      rw [List.any_eq_true] at hi
      obtain ⟨j, hjmem, hj⟩ := hi
      rw [Bool.and_eq_true] at hj
      have hine := hj.1
      rw [Bool.or_eq_true] at hine
      have hi9 := List.mem_range.mp himem
      have hj9 := List.mem_range.mp hjmem
      have hne : ¬((row / 3) * 3 + i = row ∧ (col / 3) * 3 + j = col) := by
        intro hp
        rcases hine with hx | hx
        · rw [hp.1] at hx
          simp at hx
        · rw [hp.2] at hx
          simp at hx
      rw [hnotbad ((row / 3) * 3 + i) (by omega) ((col / 3) * 3 + j) (by omega)
        ⟨hne, Or.inr (Or.inr (Or.inl ⟨by omega, by omega⟩))⟩] at hj
      exact Bool.false_ne_true hj.2
    · rw [Bool.eq_false_iff]
      intro hD
      rw [Bool.and_eq_true] at hD
      have heq : row = col := by simpa using hD.1
      rw [List.any_eq_true] at hD
      rcases hD with ⟨-, i, himem, hi⟩
      rw [Bool.and_eq_true] at hi
      have hine : i ≠ row := by simpa using hi.1
      rw [hnotbad i (List.mem_range.mp himem) i (List.mem_range.mp himem)
        ⟨fun hp => hine hp.1, Or.inr (Or.inr (Or.inr (Or.inl ⟨heq, rfl⟩)))⟩] at hi
      exact Bool.false_ne_true hi.2
    · rw [Bool.eq_false_iff]
      intro hE
      rw [Bool.and_eq_true] at hE
      have heq : row + col = 8 := by simpa using hE.1
      rw [List.any_eq_true] at hE
      rcases hE with ⟨-, i, himem, hi⟩
      rw [Bool.and_eq_true] at hi
      have hine : i ≠ row := by simpa using hi.1
      have hi9 := List.mem_range.mp himem
      rw [hnotbad i hi9 (8 - i) (by omega)
        ⟨fun hp => hine hp.1, Or.inr (Or.inr (Or.inr (Or.inr ⟨heq, by omega⟩)))⟩] at hi
      exact Bool.false_ne_true hi.2

theorem solveInv_set (b : Board) (row col n : Nat) (hInv : solveInv b)
    (hrow : row < 9) (hcol : col < 9)
    (hn9 : n ≤ 9)
    (hvalid : is_valid_move false b row col n false = true) :
    solveInv (setCell b row col { getCell b row col with value := n }) := by
  obtain ⟨hwf, hcells⟩ := hInv
  have hchar := (ivm_char b row col n hrow hcol).mp hvalid
  have hwf' : boardWF (setCell b row col { getCell b row col with value := n }) :=
    boardWF_setCell _ hwf
  have hself : getCell (setCell b row col { getCell b row col with value := n }) row col =
      { getCell b row col with value := n } :=
    getCell_setCell_self _ hwf hrow hcol
  have hframe : ∀ r c, ¬(r = row ∧ c = col) →
      getCell (setCell b row col { getCell b row col with value := n }) r c =
        getCell b r c := by
    intro r c hne
    refine getCell_setCell_ne _ _ ?_
    intro he
    rw [Prod.mk.injEq] at he
    exact hne he
  refine ⟨hwf', ?_⟩
  intro r hr c hc
  by_cases heq : r = row ∧ c = col
  · obtain ⟨h1, h2⟩ := heq
    subst h1
    subst h2
    constructor
    · constructor
      · rw [hself]
        exact (hcells r hr c hc).1.1
      · rw [hself]
        exact hn9
    · intro _ r' hr' c' hc' hsee hbadpair
      rw [hframe r' c' hsee.1, hself] at hbadpair
      exact hchar r' hr' c' hc' hsee hbadpair
  · have hsame := hframe r c heq
    constructor
    · constructor
      · rw [hsame]
        exact (hcells r hr c hc).1.1
      · rw [hsame]
        exact (hcells r hr c hc).1.2
    · intro hnz
      rw [hsame] at hnz
      intro r' hr' c' hc' hsee hbadpair
      by_cases heq' : r' = row ∧ c' = col
      · obtain ⟨e1, e2⟩ := heq'
        subst e1
        subst e2
        rw [hself, hsame] at hbadpair
        exact hchar r hr c hc (sees_symm hsee)
          ⟨(hcells r hr c hc).1.1, hbadpair.2.symm⟩
      · rw [hframe r' c' heq', hsame] at hbadpair
        exact (hcells r hr c hc).2 hnz r' hr' c' hc' hsee hbadpair

theorem countP_lt_of_mem {α : Type} (p q : α → Bool) (l : List α) (x : α)
    (hx : x ∈ l) (hpx : p x = true) (hqx : q x = false)
    (himp : ∀ y ∈ l, q y = true → p y = true) :
    l.countP q < l.countP p := by
  induction l with
  | nil => cases hx
  | cons a t ih =>
    rw [List.countP_cons, List.countP_cons]
    have hmono : t.countP q ≤ t.countP p :=
      List.countP_mono_left (fun y hy hqy => himp y (List.mem_cons_of_mem _ hy) hqy)
    rcases List.mem_cons.mp hx with hxa | hxt
    · subst hxa
      rw [hpx, hqx, if_neg Bool.false_ne_true, if_pos rfl]
      omega
    · have hlt := ih hxt (fun y hy hqy => himp y (List.mem_cons_of_mem _ hy) hqy)
      by_cases hqa : q a = true
      · rw [hqa, himp a (List.mem_cons_self _ _) hqa, if_pos rfl]
        omega
      · rw [Bool.not_eq_true] at hqa
        rw [hqa, if_neg Bool.false_ne_true]
        split <;> omega

theorem mem_allCoords (r c : Nat) (hr : r < 9) (hc : c < 9) :
    (r, c) ∈ allCoords := by
  unfold allCoords
  rw [List.mem_flatMap]
  exact ⟨r, List.mem_range.mpr hr, List.mem_map.mpr ⟨c, List.mem_range.mpr hc, rfl⟩⟩

theorem nzeros_set (b : Board) (row col n : Nat) (hwf : boardWF b)
    (hrow : row < 9) (hcol : col < 9)
    (hzero : (getCell b row col).value = 0) (hn : n ≠ 0) :
    nzeros (setCell b row col { getCell b row col with value := n }) < nzeros b := by
  unfold nzeros
  rw [← List.countP_eq_length_filter, ← List.countP_eq_length_filter]
  apply countP_lt_of_mem _ _ _ (row, col) (mem_allCoords row col hrow hcol)
  · simpa using hzero
  · rw [getCell_setCell_self _ hwf hrow hcol]
    simpa using hn
  · intro y hy hq
    by_cases hyx : y = (row, col)
    · subst hyx
      rw [getCell_setCell_self _ hwf hrow hcol] at hq
      simp at hq
      exact absurd hq hn
    · have hne : ((y.1, y.2) : Nat × Nat) ≠ (row, col) := by
        rw [Prod.mk.eta]
        exact hyx
      rw [getCell_setCell_ne _ _ hne] at hq
      exact hq

theorem find_empty_cell_none {b : Board} (h : find_empty_cell b = none) :
    ∀ r, r < 9 → ∀ c, c < 9 → (getCell b r c).value ≠ 0 := by
  unfold find_empty_cell at h
  rw [List.findSome?_eq_none_iff] at h
  intro r hr c hc hv
  have h1 := h r (List.mem_range.mpr hr)
  rw [List.findSome?_eq_none_iff] at h1
  have h2 := h1 c (List.mem_range.mpr hc)
  rw [if_pos (by simpa using hv)] at h2
  cases h2

theorem find_empty_cell_some {b : Board} {row col : Nat}
    (h : find_empty_cell b = some (row, col)) :
    row < 9 ∧ col < 9 ∧ (getCell b row col).value = 0 := by
  unfold find_empty_cell at h
  obtain ⟨r, hrmem, hr⟩ := List.exists_of_findSome?_eq_some h
  obtain ⟨c, hcmem, hc⟩ := List.exists_of_findSome?_eq_some hr
  by_cases hval : ((getCell b r c).value == 0) = true
  · rw [if_pos hval] at hc
    cases hc
    exact ⟨List.mem_range.mp hrmem, List.mem_range.mp hcmem, by simpa using hval⟩
  · rw [if_neg hval] at hc
    cases hc

theorem solve_try_isSome (k : Board → Option Board) (b : Board) (row col : Nat) :
    ∀ nums : List Nat,
      (∃ n ∈ nums, is_valid_move false b row col n false = true ∧
        (k (setCell b row col { getCell b row col with value := n })).isSome = true) →
      (solve_try k b row col nums).isSome = true := by
  intro nums
  induction nums with
  | nil =>
    rintro ⟨n, hn, -⟩
    cases hn
  | cons n0 rest ih =>
    rintro ⟨n, hmem, hval, hsome⟩
    unfold solve_try
    by_cases hv0 : is_valid_move false b row col n0 false = true
    · rw [if_pos hv0]
      cases hk : k (setCell b row col { getCell b row col with value := n0 }) with
      | some g => simp
      | none =>
        show (solve_try k b row col rest).isSome = true
        apply ih
        rcases List.mem_cons.mp hmem with he | hm
        · subst he
          rw [hk] at hsome
          simp at hsome
        · exact ⟨n, hm, hval, hsome⟩
    · rw [if_neg hv0]
      apply ih
      rcases List.mem_cons.mp hmem with he | hm
      · subst he
        exact absurd hval hv0
      · exact ⟨n, hm, hval, hsome⟩

theorem solve_success (g : Board) (hg : solveInv g) (hgc : completeB g) :
    ∀ fuel b, solveInv b →
      (∀ r, r < 9 → ∀ c, c < 9 → (getCell b r c).value ≠ 0 →
        (getCell b r c).value = (getCell g r c).value) →
      nzeros b < fuel → (solve_board fuel b).isSome = true := by
  intro fuel
  induction fuel with
  | zero =>
    intro b _ _ h
    omega
  | succ fuel ih =>
    intro b hInv hext hfuel
    unfold solve_board
    cases hfe : find_empty_cell b with
    | none => simp
    | some rc =>
      obtain ⟨row, col⟩ := rc
      obtain ⟨hrow, hcol, hzero⟩ := find_empty_cell_some hfe
      have hv0 : (getCell g row col).value ≠ 0 := hgc row hrow col hcol
      have hv9 : (getCell g row col).value ≤ 9 := (hg.2 row hrow col hcol).1.2
      have hvalid : is_valid_move false b row col (getCell g row col).value false = true := by
        rw [ivm_char b row col _ hrow hcol]
        rintro r hr c hc hsee ⟨hcold, hvald⟩
        have hbnz : (getCell b r c).value ≠ 0 := by
          rw [hvald]
          exact hv0
        have hgv := hext r hr c hc hbnz
        exact (hg.2 row hrow col hcol).2 hv0 r hr c hc hsee
          ⟨(hg.2 r hr c hc).1.1, by rw [← hgv, hvald]⟩
      have hInv' := solveInv_set b row col _ hInv hrow hcol hv9 hvalid
      have hext' : ∀ r, r < 9 → ∀ c, c < 9 →
          (getCell (setCell b row col
            { getCell b row col with value := (getCell g row col).value }) r c).value ≠ 0 →
          (getCell (setCell b row col
            { getCell b row col with value := (getCell g row col).value }) r c).value =
            (getCell g r c).value := by
        intro r hr c hc hnz
        by_cases heq : (r, c) = ((row, col) : Nat × Nat)
        · rw [Prod.mk.injEq] at heq
          rw [heq.1, heq.2]
          rw [getCell_setCell_self _ hInv.1 hrow hcol]
        · rw [getCell_setCell_ne _ _ heq] at hnz ⊢
          exact hext r hr c hc hnz
      have hz' : nzeros (setCell b row col
          { getCell b row col with value := (getCell g row col).value }) < fuel := by
        have := nzeros_set b row col _ hInv.1 hrow hcol hzero hv0
        omega
      apply solve_try_isSome
      refine ⟨(getCell g row col).value, ?_, hvalid, ih _ hInv' hext' hz'⟩
      have h1 : 1 ≤ (getCell g row col).value := Nat.one_le_iff_ne_zero.mpr hv0
      simp
      omega

theorem solve_try_sound (g : Board) (k : Board → Option Board)
    (H : ∀ b', solveInv b' → k b' = some g → solveInv g ∧ completeB g)
    (b : Board) (row col : Nat) (hInv : solveInv b)
    (hrow : row < 9) (hcol : col < 9) :
    ∀ nums : List Nat, (∀ n ∈ nums, n ≤ 9) →
      solve_try k b row col nums = some g → solveInv g ∧ completeB g := by
  intro nums
  induction nums with
  | nil =>
    intro _ h
    cases h
  | cons n0 rest ih =>
    intro hnums h
    unfold solve_try at h
    by_cases hv0 : is_valid_move false b row col n0 false = true
    · rw [if_pos hv0] at h
      cases hk : k (setCell b row col { getCell b row col with value := n0 }) with
      | some g0 =>
        rw [hk] at h
        change some g0 = some g at h
        injection h with h
        subst h
        exact H _ (solveInv_set b row col n0 hInv hrow hcol
          (hnums n0 (List.mem_cons_self _ _)) hv0) hk
      | none =>
        rw [hk] at h
        exact ih (fun n hn => hnums n (List.mem_cons_of_mem _ hn)) h
    · rw [if_neg hv0] at h
      exact ih (fun n hn => hnums n (List.mem_cons_of_mem _ hn)) h

theorem solve_sound : ∀ fuel b g, solveInv b → solve_board fuel b = some g →
    solveInv g ∧ completeB g := by
  intro fuel
  induction fuel with
  | zero =>
    intro b g _ h
    cases h
  | succ fuel ih =>
    intro b g hInv h
    unfold solve_board at h
    cases hfe : find_empty_cell b with
    | none =>
      rw [hfe] at h
      change some b = some g at h
      injection h with h
      subst h
      exact ⟨hInv, fun r hr c hc => find_empty_cell_none hfe r hr c hc⟩
    | some rc =>
      obtain ⟨row, col⟩ := rc
      rw [hfe] at h
      obtain ⟨hrow, hcol, -⟩ := find_empty_cell_some hfe
      refine solve_try_sound g (solve_board fuel)
        (fun b' hb' hk => ih b' g hb' hk) b row col hInv hrow hcol _ ?_ h
      intro n hn
      simp at hn
      omega

theorem nodup_map_range9 {f : Nat → Nat}
    (h : ∀ i, i < 9 → ∀ j, j < 9 → i ≠ j → f i ≠ f j) :
    ((List.range 9).map f).Nodup := by
  apply List.Nodup.map_on ?_ (List.nodup_range 9)
  intro x hx y hy hf
  by_contra hxy
  exact h x (List.mem_range.mp hx) y (List.mem_range.mp hy) hxy hf

theorem perm_nine (l : List Nat) (hlen : l.length = 9) (hnd : l.Nodup)
    (hmem : ∀ v ∈ l, 1 ≤ v ∧ v ≤ 9) :
    l.Perm [1, 2, 3, 4, 5, 6, 7, 8, 9] := by
  have hsub : l ⊆ [1, 2, 3, 4, 5, 6, 7, 8, 9] := by
    intro v hv
    have := hmem v hv
    simp
    omega
  exact (List.subperm_of_subset hnd hsub).perm_of_length_le (by simp [hlen])

theorem unit_perm_generic (b : Board) (hInv : solveInv b) (hcomp : completeB b)
    (pos : Nat → Nat × Nat)
    (hb : ∀ t, t < 9 → (pos t).1 < 9 ∧ (pos t).2 < 9)
    (hsee : ∀ i, i < 9 → ∀ j, j < 9 → i ≠ j →
      sees (pos i).1 (pos i).2 (pos j).1 (pos j).2) :
    ((List.range 9).map fun t => (getCell b (pos t).1 (pos t).2).value).Perm
      [1, 2, 3, 4, 5, 6, 7, 8, 9] := by
  apply perm_nine
  · simp
  · apply nodup_map_range9
    intro i hi j hj hij heq
    have hv := hcomp (pos i).1 (hb i hi).1 (pos i).2 (hb i hi).2
    have hva := (hInv.2 (pos i).1 (hb i hi).1 (pos i).2 (hb i hi).2).2 hv
    exact hva (pos j).1 (hb j hj).1 (pos j).2 (hb j hj).2 (hsee i hi j hj hij)
      ⟨(hInv.2 (pos j).1 (hb j hj).1 (pos j).2 (hb j hj).2).1.1, heq.symm⟩
  · intro v hv
    rw [List.mem_map] at hv
    obtain ⟨t, ht, hvt⟩ := hv
    subst hvt
    have ht9 := List.mem_range.mp ht
    exact ⟨Nat.one_le_iff_ne_zero.mpr (hcomp _ (hb t ht9).1 _ (hb t ht9).2),
      (hInv.2 _ (hb t ht9).1 _ (hb t ht9).2).1.2⟩

theorem box_flatMap_eq (g : Nat → Nat → Nat) :
    ((List.range 3).flatMap fun i => (List.range 3).map fun j => g i j) =
      (List.range 9).map fun t => g (t / 3) (t % 3) := rfl

theorem units_perm (b : Board) (hInv : solveInv b) (hcomp : completeB b) :
    ∀ u ∈ unitsOf b, u.Perm [1, 2, 3, 4, 5, 6, 7, 8, 9] := by
  intro u hu
  unfold unitsOf at hu
  rw [List.mem_append] at hu
  rcases hu with hu | hu
  · rw [List.mem_append] at hu
    rcases hu with hu | hu
    · rw [List.mem_append] at hu
      rcases hu with hu | hu
      · rw [List.mem_append] at hu
        rcases hu with hu | hu
        · rw [List.mem_map] at hu
          obtain ⟨r, hr, rfl⟩ := hu
          have hr9 := List.mem_range.mp hr
          exact unit_perm_generic b hInv hcomp (fun c => (r, c))
            (fun t ht => ⟨hr9, ht⟩)
            (fun i hi j hj hij => by unfold sees; dsimp only; omega)
        · rw [List.mem_map] at hu
          obtain ⟨c, hc, rfl⟩ := hu
          have hc9 := List.mem_range.mp hc
          exact unit_perm_generic b hInv hcomp (fun t => (t, c))
            (fun t ht => ⟨ht, hc9⟩)
            (fun i hi j hj hij => by unfold sees; dsimp only; omega)
      · rw [List.mem_flatMap] at hu
        obtain ⟨bi, hbi, hu⟩ := hu
        rw [List.mem_map] at hu
        obtain ⟨bj, hbj, rfl⟩ := hu
        have hbi3 := List.mem_range.mp hbi
        have hbj3 := List.mem_range.mp hbj
        rw [box_flatMap_eq (fun i j => (getCell b (3 * bi + i) (3 * bj + j)).value)]
        exact unit_perm_generic b hInv hcomp
          (fun t => (3 * bi + t / 3, 3 * bj + t % 3))
          (fun t ht => ⟨by dsimp only; omega, by dsimp only; omega⟩)
          (fun i hi j hj hij => by unfold sees; dsimp only; omega)
    · rw [List.mem_singleton] at hu
      subst hu
      exact unit_perm_generic b hInv hcomp (fun t => (t, t))
        (fun t ht => ⟨ht, ht⟩)
        (fun i hi j hj hij => by unfold sees; dsimp only; omega)
  · rw [List.mem_singleton] at hu
    subst hu
    exact unit_perm_generic b hInv hcomp (fun t => (t, 8 - t))
      (fun t ht => ⟨ht, by dsimp only; omega⟩)
      (fun i hi j hj hij => by unfold sees; dsimp only; omega)

/-- Claim C5: the backtracking full-board generator, run as
generate_solved_board does on the reset (all-empty) board with enough
fuel for its at most 81 nested placements, terminates with a complete
assignment in which every row, column, 3x3 box, the main diagonal and
the anti-diagonal is a permutation of 1..9; each placement was accepted
by is_valid_move, whose scans include both diagonals, so the diagonal
constraints are enforced during the fill itself. -/
theorem claim_C5 :
    ∃ g, solve_board 82 emptyBoard = some g ∧
      ∀ u ∈ unitsOf g, u.Perm [1, 2, 3, 4, 5, 6, 7, 8, 9] := by
  have hg : solveInv (mkB gSolVals) := by decide
  have hgc : completeB (mkB gSolVals) := by decide
  have hInv0 : solveInv emptyBoard := by decide
  have hext0 : ∀ r, r < 9 → ∀ c, c < 9 → (getCell emptyBoard r c).value ≠ 0 →
      (getCell emptyBoard r c).value = (getCell (mkB gSolVals) r c).value := by
    decide
  have hz : nzeros emptyBoard < 82 := by decide
  have hsome := solve_success (mkB gSolVals) hg hgc 82 emptyBoard hInv0 hext0 hz
  obtain ⟨g, hgeq⟩ := Option.isSome_iff_exists.mp hsome
  obtain ⟨hInvG, hcompG⟩ := solve_sound 82 emptyBoard g hInv0 hgeq
  exact ⟨g, hgeq, units_perm g hInvG hcompG⟩
